import Mathlib

/-!
Verification development for the cognitive-runtime memory engine.

This file gives a shallow embedding, in Lean 4, of the scoring, budgeting,
compaction, retrieval and consolidation logic of the repository, and proves
the behavioural properties claimed for those components.

Modelling conventions:
- JavaScript numbers carrying scores, thresholds and weights are modelled as
  rationals; token counts and budgets are natural numbers.
- The helper `estimateTokens` lives in a configuration module that is not part
  of the sources; every definition that needs it takes an estimator function
  `est : String → ℕ` as a parameter, so all theorems hold for any estimator.
- `recencyOf` (wall-clock exponential decay) and `cos` (floating-point cosine
  similarity over embedding vectors) are likewise taken as parameters, since
  their float/transcendental arithmetic has no exact rational counterpart;
  no claim below depends on their concrete values.
- JavaScript `x.token_count || estimateTokens(x.content)` is modelled by
  testing the count against 0, the only falsy value a numeric field takes here.
- A JavaScript `Map` used for deduplication is modelled as an association list
  with position-preserving `set`, which matches insertion-order iteration.
- `Array.prototype.sort` with a score comparator is modelled by a stable
  sort `sortByLe`; any stable sort is a faithful model of the ECMAScript
  specification for a consistent comparator.
-/

namespace CognitiveStack

/-- Six-dimension score vector of a context candidate, plus the aggregated
final score, as produced by retrieval and consumed by the Thalamus packer. -/
structure CandidateScores where
  relevance : ℚ
  recency : ℚ
  scope_match : ℚ
  type_priority : ℚ
  decay_penalty : ℚ
  skill_weight : ℚ
  final : ℚ
deriving DecidableEq

/-- A context candidate flowing from retrieval / RAG / skill activation into
the Thalamus packer (TypeScript interface `ContextCandidate`). -/
structure ContextCandidate where
  id : String
  source : String
  content : String
  label : String
  token_count : ℕ
  scores : CandidateScores
  dropped : Bool
  drop_reason : Option String := none
deriving DecidableEq

/-- An activated skill package (TypeScript interface `SkillPackage`). -/
structure SkillPackage where
  id : String
  name : String
  system_fragment : String
  token_budget : ℕ
  priority : ℚ
deriving DecidableEq

/-- Token budgets of a loadout (fields of `loadout.budgets` in the sources). -/
structure Budgets where
  l1_window_tokens : ℕ
  l2_budget_tokens : ℕ
  skills : ℕ
  response_reserve : ℕ
deriving DecidableEq

/-- Threshold configuration of a loadout (`loadout.thresholds`). -/
structure Thresholds where
  thalamus_threshold : ℚ
  consolidation_trigger : ℚ
deriving DecidableEq

/-- Per-session policy: budgets plus thresholds (`Loadout` in the sources). -/
structure Loadout where
  budgets : Budgets
  thresholds : Thresholds
deriving DecidableEq

/-- One turn of the L1 sliding window (`SlidingWindowEntry`). -/
structure SlidingWindowEntry where
  role : String
  content : String
  token_count : ℕ
  timestamp : String
deriving DecidableEq

/-- Stable insertion sort by a boolean comparator; `le a b = true` means `a`
may be placed before `b`.  Models `Array.prototype.sort` (stable per the
ECMAScript specification) with a consistent comparator. -/
def insertByLe {α : Type} (le : α → α → Bool) (a : α) : List α → List α
  | [] => [a]
  | b :: bs => if le a b then a :: b :: bs else b :: insertByLe le a bs

/-- Stable sort built from `insertByLe`. -/
def sortByLe {α : Type} (le : α → α → Bool) : List α → List α
  | [] => []
  | a :: as => insertByLe le a (sortByLe le as)

theorem insertByLe_perm {α : Type} (le : α → α → Bool) (a : α) (l : List α) :
    (insertByLe le a l).Perm (a :: l) := by
  induction l with
  | nil => simp [insertByLe]
  | cons b bs ih =>
    simp only [insertByLe]
    split
    · exact List.Perm.refl _
    · exact (List.Perm.cons b ih).trans (List.Perm.swap a b bs)

theorem sortByLe_perm {α : Type} (le : α → α → Bool) (l : List α) :
    (sortByLe le l).Perm l := by
  induction l with
  | nil => exact List.Perm.refl _
  | cons a as ih =>
    exact (insertByLe_perm le a (sortByLe le as)).trans (List.Perm.cons a ih)

theorem mem_sortByLe {α : Type} {le : α → α → Bool} {a : α} {l : List α} :
    a ∈ sortByLe le l ↔ a ∈ l := (sortByLe_perm le l).mem_iff

/-- Descending-by-final-score comparator used by the Thalamus
(`(a, b) => b.scores.final - a.scores.final`). -/
def byFinalDesc (a b : ContextCandidate) : Bool :=
  decide (b.scores.final ≤ a.scores.final)

/-- Builds the fixed-score context candidate for one activated skill
(`thalamus.ts`, skill candidate construction). -/
def skillCandidate (est : String → ℕ) (skill : SkillPackage) : ContextCandidate :=
  { id := "skill:" ++ skill.id
    source := "skill"
    content := skill.system_fragment
    label := "[skill:" ++ skill.name ++ "]"
    token_count := min (est skill.system_fragment) skill.token_budget
    scores :=
      { relevance := 1.0
        recency := 1.0
        scope_match := 1.0
        type_priority := 1.0
        decay_penalty := 0
        skill_weight := 1.0
        final := 1.0 + skill.priority * 0.01 }
    dropped := false }

/-- `Map.set` on an association of candidates keyed by id: replaces in place
when the key exists, appends otherwise (JavaScript `Map` semantics). -/
def candMapSet (m : List ContextCandidate) (c : ContextCandidate) : List ContextCandidate :=
  if m.any (fun d => d.id == c.id) then m.map (fun d => if d.id == c.id then c else d)
  else m ++ [c]

/-- One step of the dedup fold in `ThalamusService.pack`: keep the incoming
candidate only when no entry with its id exists or it scores strictly higher. -/
def dedupStep (m : List ContextCandidate) (c : ContextCandidate) : List ContextCandidate :=
  match m.find? (fun d => d.id == c.id) with
  | none => candMapSet m c
  | some existing =>
    if existing.scores.final < c.scores.final then candMapSet m c else m

/-- Deduplicate memory + RAG candidates by id, preferring the
higher-scored duplicate (`thalamus.ts`, step 3 of `pack`). -/
def dedupById (cs : List ContextCandidate) : List ContextCandidate :=
  cs.foldl dedupStep []

/-- The drop-reason string tagging the threshold value
(template literal in `thalamus.ts`, step 4 of `pack`). -/
def thresholdTag (threshold : ℚ) : String :=
  "below_thalamus_threshold(" ++ toString threshold ++ ")"

/-- Mark a below-threshold candidate as dropped with the tagged reason. -/
def markBelowThreshold (threshold : ℚ) (c : ContextCandidate) : ContextCandidate :=
  { c with dropped := true, drop_reason := some (thresholdTag threshold) }

/-- A candidate accepted by the greedy packer (`{...candidate, dropped: false}`). -/
def acceptCandidate (c : ContextCandidate) : ContextCandidate :=
  { c with dropped := false }

/-- A candidate rejected by the greedy packer for a budget reason. -/
def rejectCandidate (reason : String) (c : ContextCandidate) : ContextCandidate :=
  { c with dropped := true, drop_reason := some reason }

/-- Accumulator of one greedy packing loop: tokens used so far plus the
packed and dropped lists the loop pushes into. -/
structure PackAcc where
  used : ℕ
  packed : List ContextCandidate
  dropped : List ContextCandidate
deriving DecidableEq

/-- One iteration of a greedy packing loop in `ThalamusService.pack`
(step 6 of `pack`): accept while cumulative tokens stay within budget,
otherwise drop with the given reason. -/
def packStep (budget : ℕ) (reason : String) (st : PackAcc) (c : ContextCandidate) : PackAcc :=
  if st.used + c.token_count ≤ budget then
    { st with used := st.used + c.token_count, packed := st.packed ++ [acceptCandidate c] }
  else
    { st with dropped := st.dropped ++ [rejectCandidate reason c] }

/-- A full greedy packing loop over a candidate list, starting from empty. -/
def greedyPack (budget : ℕ) (reason : String) (cands : List ContextCandidate) : PackAcc :=
  cands.foldl (packStep budget reason) { used := 0, packed := [], dropped := [] }

/-- Token total of a candidate list (the sums the budget property is about). -/
def sumTokens (l : List ContextCandidate) : ℕ :=
  (l.map (fun c => c.token_count)).sum

/-- Effective token count of a sliding-window entry:
`entry.token_count || estimateTokens(entry.content)`. -/
def entryTokens (est : String → ℕ) (e : SlidingWindowEntry) : ℕ :=
  if e.token_count = 0 then est e.content else e.token_count

/-- Token total of a window under the effective per-entry count. -/
def windowTokens (est : String → ℕ) (w : List SlidingWindowEntry) : ℕ :=
  (w.map (entryTokens est)).sum

/-- Helper of `selectSlidingWindow`: walks the window newest-first and keeps
entries while they fit, stopping at the first that would exceed the budget. -/
def selectGo (est : String → ℕ) (tokenBudget : ℕ) :
    ℕ → List SlidingWindowEntry → List SlidingWindowEntry
  | _, [] => []
  | tokensUsed, e :: rest =>
    let tokens := entryTokens est e
    if tokenBudget < tokensUsed + tokens then []
    else e :: selectGo est tokenBudget (tokensUsed + tokens) rest

/-- `ThalamusService.selectSlidingWindow`: select the most recent entries that
fit in the token budget, preserving chronological order. -/
def selectSlidingWindow (est : String → ℕ) (window : List SlidingWindowEntry)
    (tokenBudget : ℕ) : List SlidingWindowEntry :=
  (selectGo est tokenBudget 0 window.reverse).reverse

/-- A labeled context block of the assembled prompt. -/
structure ContextBlock where
  label : String
  content : String
  token_count : ℕ
  source : String
deriving DecidableEq

/-- Token accounting of the assembled prompt (`token_breakdown`). -/
structure TokenBreakdown where
  system : ℕ
  context : ℕ
  history : ℕ
  user_message : ℕ
  total : ℕ
  budget_remaining : ℕ
deriving DecidableEq

/-- The assembled prompt skeleton returned by `pack`. -/
structure AssembledPrompt where
  system : String
  context_blocks : List ContextBlock
  messages : List (String × String)
  token_breakdown : TokenBreakdown
deriving DecidableEq

/-- Result of `ThalamusService.pack` (citations omitted: they are a projection
of `packed` not referenced by any property below). -/
structure PackResult where
  packed : List ContextCandidate
  dropped : List ContextCandidate
  windowEntries : List SlidingWindowEntry
  prompt : AssembledPrompt
deriving DecidableEq

/-- `ThalamusService.pack` (primary version, taking memory + RAG candidate
lists): window selection, skill candidate construction, dedup, threshold
gate, descending sort, greedy packing within the skill and L2 budgets, and
prompt assembly.  The two source loops push into shared `packed`/`dropped`
arrays; since the first loop only appends skill entries and the second only
memory entries, the shared arrays equal the concatenations used here. -/
def pack (est : String → ℕ) (sliding_window : List SlidingWindowEntry) (loadout : Loadout)
    (retrievedCandidates ragCandidates : List ContextCandidate)
    (activatedSkills : List SkillPackage) (userMessage baseSystem : String) : PackResult :=
  let budgets := loadout.budgets
  let threshold := loadout.thresholds.thalamus_threshold
  let windowEntries := selectSlidingWindow est sliding_window budgets.l1_window_tokens
  let winTokens := (windowEntries.map (fun e => e.token_count)).sum
  let skillCandidates := activatedSkills.map (skillCandidate est)
  let allMemory := retrievedCandidates ++ ragCandidates
  let memoryCandidates := dedupById allMemory
  let viable := memoryCandidates.filter (fun c => decide (threshold ≤ c.scores.final))
  let filtered := memoryCandidates.filter (fun c => decide (c.scores.final < threshold))
  let belowThreshold := filtered.map (markBelowThreshold threshold)
  let sortedMemory := sortByLe byFinalDesc viable
  let sortedSkills := sortByLe byFinalDesc skillCandidates
  let skillRes := greedyPack budgets.skills "skill_budget_exceeded" sortedSkills
  let memRes := greedyPack budgets.l2_budget_tokens "l2_budget_exceeded" sortedMemory
  let packed := skillRes.packed ++ memRes.packed
  let droppedAll := belowThreshold ++ skillRes.dropped ++ memRes.dropped
  let skillBlocks := packed.filter (fun c => c.source == "skill")
  let memoryBlocks := packed.filter (fun c => c.source != "skill")
  let systemParts := [baseSystem] ++ skillBlocks.map (fun s => s.content)
  let systemPrompt := String.intercalate "\n\n" (systemParts.filter (fun s => s != ""))
  let systemTokens := est systemPrompt
  let contextBlocks := memoryBlocks.map (fun c =>
    ({ label := c.label, content := c.content, token_count := c.token_count,
       source := c.source } : ContextBlock))
  let contextTokens := (contextBlocks.map (fun b => b.token_count)).sum
  let messages := (windowEntries.filter (fun e => e.role != "system")).map
    (fun e => (e.role, e.content))
  let userMessageTokens := est userMessage
  let totalUsed := systemTokens + contextTokens + winTokens + userMessageTokens
  let totalBudget := budgets.l1_window_tokens + budgets.l2_budget_tokens
    + budgets.skills + budgets.response_reserve
  { packed := packed
    dropped := droppedAll
    windowEntries := windowEntries
    prompt :=
      { system := systemPrompt
        context_blocks := contextBlocks
        messages := messages
        token_breakdown :=
          { system := systemTokens
            context := contextTokens
            history := winTokens
            user_message := userMessageTokens
            total := totalUsed
            budget_remaining := totalBudget - totalUsed } } }

/-- Accumulator of the combined packing loop of the second `pack` variant,
which walks skills and memory candidates in one score-sorted pass. -/
structure PackAcc2 where
  skillTokensUsed : ℕ
  memoryTokensUsed : ℕ
  packed : List ContextCandidate
  dropped : List ContextCandidate
deriving DecidableEq

/-- One iteration of the combined loop: branch on the candidate source and
check the corresponding budget. -/
def packStep2 (skillBudget l2Budget : ℕ) (st : PackAcc2) (c : ContextCandidate) : PackAcc2 :=
  if c.source == "skill" then
    if st.skillTokensUsed + c.token_count ≤ skillBudget then
      { st with skillTokensUsed := st.skillTokensUsed + c.token_count
                packed := st.packed ++ [acceptCandidate c] }
    else
      { st with dropped := st.dropped ++ [rejectCandidate "skill_budget_exceeded" c] }
  else
    if st.memoryTokensUsed + c.token_count ≤ l2Budget then
      { st with memoryTokensUsed := st.memoryTokensUsed + c.token_count
                packed := st.packed ++ [acceptCandidate c] }
    else
      { st with dropped := st.dropped ++ [rejectCandidate "l2_budget_exceeded" c] }

/-- The combined greedy loop of the second `pack` variant. -/
def packCombined (skillBudget l2Budget : ℕ) (allCandidates : List ContextCandidate) : PackAcc2 :=
  allCandidates.foldl (packStep2 skillBudget l2Budget)
    { skillTokensUsed := 0, memoryTokensUsed := 0, packed := [], dropped := [] }

/-- The second `pack` variant (single retrieved list, `memory_relevance_min`
gate, one combined loop, constant below-threshold reason). -/
def packV2 (est : String → ℕ) (skillBudget l2Budget : ℕ) (memory_relevance_min : ℚ)
    (retrievedCandidates : List ContextCandidate)
    (activatedSkills : List SkillPackage) : PackAcc2 :=
  let skillCandidates := activatedSkills.map (skillCandidate est)
  let viableMemory := retrievedCandidates.filter
    (fun c => decide (memory_relevance_min ≤ c.scores.final))
  let allCandidates := sortByLe byFinalDesc (skillCandidates ++ viableMemory)
  let res := packCombined skillBudget l2Budget allCandidates
  let belowThresholdMarked := (retrievedCandidates.filter
      (fun c => decide (c.scores.final < memory_relevance_min))).map
    (fun c => { c with dropped := true, drop_reason := some "below_relevance_threshold" })
  { res with dropped := res.dropped ++ belowThresholdMarked }

/-- `ThalamusService.computePressure`: used tokens over the (floored) total
budget. -/
def computePressure (total totalBudget : ℕ) : ℚ :=
  (total : ℚ) / max 1 (totalBudget : ℚ)

/-- `ThalamusService.compactL1`: evict entries from the oldest (front) end
while the token total exceeds the target and more than 2 turns remain.
Returns `(compacted, evicted)`. -/
def compactL1 (est : String → ℕ) :
    List SlidingWindowEntry → ℕ → List SlidingWindowEntry × List SlidingWindowEntry
  | [], _ => ([], [])
  | e :: rest, targetTokens =>
    if targetTokens < windowTokens est (e :: rest) ∧ 2 < (e :: rest).length then
      let p := compactL1 est rest targetTokens
      (p.1, e :: p.2)
    else (e :: rest, [])

/-- Outcome of the L1 compaction stage of the orchestrator. -/
structure CompactionOutcome where
  window : List SlidingWindowEntry
  compaction_pass : ℕ
  evicted_count : ℕ
deriving DecidableEq

/-- The L1 compaction stage of `CognitiveOrchestrator.process`: when pressure
reaches the consolidation trigger, compact toward 60% of the window budget
(`Math.floor(l1_window_tokens * 0.6)` modelled as the natural-number floor)
and on actual eviction adopt the compacted window and bump the pass counter;
otherwise cap the stored window at its most recent 50 turns (`slice(-50)`). -/
def compactionStage (est : String → ℕ) (pressure consolidation_trigger : ℚ)
    (l1_window_tokens : ℕ) (updatedWindow : List SlidingWindowEntry)
    (compaction_pass : ℕ) : CompactionOutcome :=
  if consolidation_trigger ≤ pressure then
    let targetTokens := 6 * l1_window_tokens / 10
    let p := compactL1 est updatedWindow targetTokens
    if 0 < p.2.length then
      { window := p.1
        compaction_pass := compaction_pass + 1
        evicted_count := p.2.length }
    else
      { window := updatedWindow
        compaction_pass := compaction_pass
        evicted_count := 0 }
  else
    { window := updatedWindow.drop (updatedWindow.length - 50)
      compaction_pass := compaction_pass
      evicted_count := 0 }

/-- A durable L2/L3 memory record as stored in the `memory_items` table. -/
structure MemoryItem where
  id : String
  type : String
  scope : String
  content : String
  embedding : Option (List ℚ)
  tags : List String
  confidence : ℚ
  decay_score : ℚ
  created_at : String
  last_accessed : String
  token_count : ℕ
  user_id : String
  session_id : String
  project_id : Option String
deriving DecidableEq

/-- Parameters of `StorageService.queryMemory` /
`StorageService.queryMemoryWithEmbeddings`. -/
structure MemoryQuery where
  user_id : String
  session_id : Option String := none
  project_id : Option String := none
  scope : Option String := none
  type : Option String := none
  limit : ℕ := 50
  exclude_high_decay : Bool := false
deriving DecidableEq

/-- The WHERE clause of `queryMemory`: user match, optional scope and type
predicates, the project-namespace isolation branch, and the
`decay_score < 0.8` condition when `exclude_high_decay` is set. -/
def memoryQueryPred (p : MemoryQuery) (m : MemoryItem) : Bool :=
  (m.user_id == p.user_id)
  && (match p.scope with
      | none => true
      | some s => m.scope == s || m.scope == "global")
  && (match p.type with
      | none => true
      | some t => m.type == t)
  && (match p.session_id, p.project_id with
      | some sid, some pid => m.session_id == sid || m.project_id == some pid || m.scope == "global"
      | some sid, none => m.session_id == sid || m.scope == "project" || m.scope == "global"
      | _, _ => true)
  && (!p.exclude_high_decay || decide (m.decay_score < 0.8))

/-- ORDER BY `last_accessed DESC, confidence DESC` (ISO timestamps compare
chronologically as text). -/
def byAccessedDesc (a b : MemoryItem) : Bool :=
  if a.last_accessed == b.last_accessed then decide (b.confidence ≤ a.confidence)
  else decide (b.last_accessed < a.last_accessed)

/-- `StorageService.queryMemory` over an in-memory table. -/
def queryMemory (store : List MemoryItem) (p : MemoryQuery) : List MemoryItem :=
  (sortByLe byAccessedDesc (store.filter (memoryQueryPred p))).take p.limit

/-- The WHERE clause of `queryMemoryWithEmbeddings`: user match, an embedding
present, optional scope predicate, the session branch, and the unconditional
`decay_score < 0.85` condition.  The function ignores `project_id`. -/
def memoryEmbedQueryPred (p : MemoryQuery) (m : MemoryItem) : Bool :=
  (m.user_id == p.user_id)
  && !m.embedding.isNone
  && (match p.scope with
      | none => true
      | some s => m.scope == s || m.scope == "global")
  && (match p.session_id with
      | some sid => m.session_id == sid || m.scope == "project" || m.scope == "global"
      | none => true)
  && decide (m.decay_score < 0.85)

/-- `StorageService.queryMemoryWithEmbeddings` over an in-memory table. -/
def queryMemoryWithEmbeddings (store : List MemoryItem) (p : MemoryQuery) : List MemoryItem :=
  (sortByLe byAccessedDesc (store.filter (memoryEmbedQueryPred p))).take p.limit

/-- The seen-set dedup loop of `RetrievalService.retrieve` (step 2): keep the
first occurrence of every id. -/
def dedupFirst : List MemoryItem → List String → List MemoryItem
  | [], _ => []
  | i :: rest, seen =>
    if seen.contains i.id then dedupFirst rest seen
    else i :: dedupFirst rest (i.id :: seen)

/-- `EmbeddingService.rankBySimilarity`, with the floating-point cosine
similarity abstracted as the parameter `cos`: pair every candidate id with
its similarity (0 when it has no embedding) and sort descending. -/
def rankBySimilarity (cos : List ℚ → List ℚ → ℚ) (queryEmbedding : List ℚ)
    (candidates : List MemoryItem) : List (String × ℚ) :=
  sortByLe (fun a b => decide (b.2 ≤ a.2))
    (candidates.map (fun c =>
      (c.id, match c.embedding with
        | some e => cos queryEmbedding e
        | none => 0)))

/-- `Map.set` on the similarity map keyed by record id. -/
def simMapSet (m : List (String × ℚ)) (e : String × ℚ) : List (String × ℚ) :=
  if m.any (fun d => d.1 == e.1) then m.map (fun d => if d.1 == e.1 then e else d)
  else m ++ [e]

/-- Builds the similarity map from the ranked list (step 3 of `retrieve`). -/
def buildSimilarityMap (ranked : List (String × ℚ)) : List (String × ℚ) :=
  ranked.foldl simMapSet []

/-- The stop-word set of `RetrievalService` (`STOP_WORDS`). -/
def STOP_WORDS : List String :=
  ["the", "and", "for", "are", "but", "not", "you", "all", "can", "had",
   "her", "was", "one", "our", "out", "day", "get", "has", "him", "his",
   "how", "man", "new", "now", "old", "see", "two", "way", "who", "boy",
   "did", "its", "let", "put", "say", "she", "too", "use", "that", "with",
   "this", "they", "have", "from", "will", "been", "said", "each", "about",
   "your", "more", "also", "into", "just", "like", "than", "then", "them",
   "some", "what", "when", "which", "there", "their", "would", "make", "could"]

/-- ASCII lower-casing of one character (`String.prototype.toLowerCase`
restricted to the ASCII range the tokenizer keeps). -/
def lowerChar (c : Char) : Char :=
  if 'A' ≤ c ∧ c ≤ 'Z' then Char.ofNat (c.toNat + 32) else c

/-- Lower-case a character and map everything outside `[a-z0-9]` to a space
(the `replace(/[^a-z0-9\s]/g, ' ')` step; whitespace and replacement spaces
are identical to the subsequent whitespace split). -/
def normalizeChar (c : Char) : Char :=
  let l := lowerChar c
  if ('a' ≤ l ∧ l ≤ 'z') ∨ ('0' ≤ l ∧ l ≤ '9') then l else ' '

/-- `RetrievalService.tokenize`: lower-case, strip punctuation, split on
whitespace, keep tokens longer than 2 characters that are not stop words. -/
def tokenize (text : String) : List String :=
  ((List.splitOnP (fun c => c == ' ') (text.toList.map normalizeChar)).map
      (fun t => String.mk t)).filter
    (fun t => decide (2 < t.length) && !STOP_WORDS.contains t)

/-- `RetrievalService.computeTextRelevance`: share of query tokens found in
the content token set, capped at 1. -/
def computeTextRelevance (query content : String) : ℚ :=
  if content == "" || query == "" then 0
  else
    let qTokens := tokenize query
    let cTokens := tokenize content
    if qTokens.length = 0 then 0
    else min 1 (((qTokens.filter (fun t => cTokens.contains t)).length : ℚ) / (qTokens.length : ℚ))

/-- `RetrievalService.computeScopeMatch`. -/
def computeScopeMatch (itemScope : String) (requestedScopes : List String) : ℚ :=
  if itemScope == "global" then 1.0
  else if requestedScopes.contains itemScope then 0.9
  else 0.3

/-- `RetrievalService.computeTypeScore`. -/
def computeTypeScore (t : String) : ℚ :=
  if t == "summary" then 1.0
  else if t == "semantic" then 0.85
  else if t == "episodic" then 0.65
  else 0.5

/-- `RetrievalService.computeSkillWeight`. -/
def computeSkillWeight (tags : List String) (activeSkillIds : List String) : ℚ :=
  if tags.isEmpty then 0
  else min 1 (((tags.filter (fun t => activeSkillIds.contains t)).length : ℚ)
    / max 1 (activeSkillIds.length : ℚ))

/-- The semantic weight profile of the retrieval blend, in dimension order
relevance, recency, scope, type, decay complement, skill. -/
def semanticWeightProfile : List ℚ := [0.40, 0.20, 0.15, 0.10, 0.10, 0.05]

/-- The lexical-fallback weight profile of the retrieval blend. -/
def lexicalWeightProfile : List ℚ := [0.45, 0.20, 0.15, 0.10, 0.05, 0.05]

/-- Dot product of a weight profile with a dimension list. -/
def weightedSum : List ℚ → List ℚ → ℚ
  | w :: ws, d :: ds => w * d + weightedSum ws ds
  | _, _ => 0

/-- The six recorded sub-scores of a candidate as a dimension list, with the
decay penalty entering as its complement (the blend multiplies
`(1 - decayPenalty)`). -/
def scoreDims (s : CandidateScores) : List ℚ :=
  [s.relevance, s.recency, s.scope_match, s.type_priority, 1 - s.decay_penalty, s.skill_weight]

/-- The dimension list the lexical branch of the blend actually consumes:
the keyword-overlap score in the relevance slot. -/
def lexicalDims (keywordScore : ℚ) (s : CandidateScores) : List ℚ :=
  [keywordScore, s.recency, s.scope_match, s.type_priority, 1 - s.decay_penalty, s.skill_weight]

/-- The per-item scoring step of `RetrievalService.retrieve` (step 4): compute
the six sub-scores, blend them under one of the two weight profiles chosen by
`hasEmbeddings && semanticScore > 0`, and build the context candidate.  The
wall-clock recency curve is the parameter `recencyOf`. -/
def scoreItem (query : String) (recencyOf : String → ℚ)
    (memory_scopes activeSkillIds : List String)
    (similarityMap : List (String × ℚ)) (hasEmbeddings : Bool)
    (est : String → ℕ) (item : MemoryItem) : ContextCandidate :=
  let semanticScore := (List.lookup item.id similarityMap).getD 0
  let keywordScore := computeTextRelevance query item.content
  let recencyScore := recencyOf item.last_accessed
  let scopeScore := computeScopeMatch item.scope memory_scopes
  let typeScore := computeTypeScore item.type
  let decayPenalty := item.decay_score
  let skillWeight := computeSkillWeight item.tags activeSkillIds
  let finalScore :=
    if hasEmbeddings ∧ 0 < semanticScore then
      0.40 * semanticScore + 0.20 * recencyScore + 0.15 * scopeScore
        + 0.10 * typeScore + 0.10 * (1 - decayPenalty) + 0.05 * skillWeight
    else
      0.45 * keywordScore + 0.20 * recencyScore + 0.15 * scopeScore
        + 0.10 * typeScore + 0.05 * (1 - decayPenalty) + 0.05 * skillWeight
  let tagsJoined := String.intercalate ", " item.tags
  { id := item.id
    source := "l2_memory"
    content := item.content
    label := "[" ++ item.type ++ ":" ++ item.scope ++ "] "
      ++ (if tagsJoined == "" then "memory" else tagsJoined)
    token_count := if item.token_count = 0 then est item.content else item.token_count
    scores :=
      { relevance := if hasEmbeddings then semanticScore else keywordScore
        recency := recencyScore
        scope_match := scopeScore
        type_priority := typeScore
        decay_penalty := decayPenalty
        skill_weight := skillWeight
        final := finalScore }
    dropped := false }

/-- Parameters of `RetrievalService.retrieve`. -/
structure RetrieveParams where
  user_id : String
  session_id : String
  project_id : Option String := none
  query : String
  queryEmbedding : Option (List ℚ) := none
  memory_scopes : List String := []
  activated_skill_ids : List String := []
  limit : ℕ := 30
deriving DecidableEq

/-- `RetrievalService.retrieve` (semantic + keyword version): fetch the
keyword pool (high decay excluded) and, when a query embedding exists, the
embedding pool; deduplicate by id keeping first occurrences; build the
similarity map; score everything; sort descending; return the top `limit`.
The asynchronous access-touch on returned items has no effect on the
returned list and is not modelled. -/
def retrieve (store : List MemoryItem) (cos : List ℚ → List ℚ → ℚ)
    (recencyOf : String → ℚ) (est : String → ℕ) (p : RetrieveParams) :
    List ContextCandidate :=
  let keywordItems := queryMemory store
    { user_id := p.user_id, session_id := some p.session_id, project_id := p.project_id,
      exclude_high_decay := true, limit := p.limit * 2 }
  let semanticItems := match p.queryEmbedding with
    | some _ => queryMemoryWithEmbeddings store
        { user_id := p.user_id, session_id := some p.session_id,
          project_id := p.project_id, limit := 150 }
    | none => []
  if keywordItems.isEmpty ∧ semanticItems.isEmpty then []
  else
    let allItems := dedupFirst (keywordItems ++ semanticItems) []
    let similarityMap := match p.queryEmbedding with
      | some qe =>
        if 0 < semanticItems.length then buildSimilarityMap (rankBySimilarity cos qe semanticItems)
        else []
      | none => []
    let hasEmbeddings := 0 < similarityMap.length
    let scored := allItems.map
      (scoreItem p.query recencyOf p.memory_scopes p.activated_skill_ids similarityMap hasEmbeddings est)
    let sorted := sortByLe byFinalDesc scored
    sorted.take p.limit

/-- One pending decay write of the consolidation worker. -/
structure DecayUpdate where
  id : String
  decay_score : ℚ
deriving DecidableEq

/-- Step 3 of `ConsolidationWorker.runConsolidation`: recompute decay for
every touched record and collect an update exactly when the recomputed value
differs from the stored one by more than 0.05.  The missing configuration
function `computeDecay` is the parameter `computeDecayF`. -/
def decayRefreshUpdates (computeDecayF : String → String → ℚ)
    (existingMemories : List MemoryItem) : List DecayUpdate :=
  existingMemories.foldl (fun acc mem =>
    let newDecay := computeDecayF mem.last_accessed mem.created_at
    if 0.05 < |newDecay - mem.decay_score| then
      acc ++ [{ id := mem.id, decay_score := newDecay }]
    else acc) []

/-- Effect of one decay UPDATE statement on one row. -/
def applyDecayUpdate (u : DecayUpdate) (m : MemoryItem) : MemoryItem :=
  if m.id == u.id then { m with decay_score := u.decay_score } else m

/-- `StorageService.updateDecayScores`: one UPDATE per collected item,
setting `decay_score` on the row with the matching id. -/
def updateDecayScores (store : List MemoryItem) (items : List DecayUpdate) : List MemoryItem :=
  items.foldl (fun st u => st.map (applyDecayUpdate u)) store

/-- The decay-refresh step of `runConsolidation` applied to storage: collect
the updates and persist them only when the list is non-empty.  Returns the
new store and the collected updates. -/
def consolidationDecayStep (computeDecayF : String → String → ℚ)
    (store existingMemories : List MemoryItem) : List MemoryItem × List DecayUpdate :=
  let updates := decayRefreshUpdates computeDecayF existingMemories
  (if 0 < updates.length then updateDecayScores store updates else store, updates)

/-- A queued consolidation job (only the fields the scheduling writes). -/
structure ConsolidationJob where
  job_id : String
  session_id : String
  consolidation_type : Option String
deriving DecidableEq

/-- The scheduling predicate of `CognitiveOrchestrator.process` (stage 8):
`permissions.can_write_summary && (pressure ≥ trigger || force_consolidate
|| session_end)`. -/
def shouldConsolidate (can_write_summary : Bool) (pressure consolidation_trigger : ℚ)
    (force_consolidate session_end : Bool) : Bool :=
  can_write_summary
    && (decide (consolidation_trigger ≤ pressure) || force_consolidate || session_end)

/-- The classification of why a job was enqueued. -/
def consolidationTypeOf (pressure consolidation_trigger : ℚ) (session_end : Bool) : String :=
  if session_end then "session_end"
  else if consolidation_trigger ≤ pressure then "token_pressure"
  else "manual"

/-- The jobs inserted by stage 8 of `CognitiveOrchestrator.process`: exactly
one when the scheduling predicate holds, none otherwise. -/
def jobsEnqueued (can_write_summary : Bool) (pressure consolidation_trigger : ℚ)
    (force_consolidate session_end : Bool) (job_id session_id : String) :
    List ConsolidationJob :=
  if shouldConsolidate can_write_summary pressure consolidation_trigger
      force_consolidate session_end then
    [{ job_id := job_id, session_id := session_id
       consolidation_type := some (consolidationTypeOf pressure consolidation_trigger session_end) }]
  else []

/-- The jobs inserted by the second orchestrator variant, whose condition is
`can_write_summary && (pressure > trigger || force_consolidate)` and whose
job record carries no consolidation type. -/
def jobsEnqueuedV2 (can_write_summary : Bool) (pressure consolidation_trigger : ℚ)
    (force_consolidate : Bool) (job_id session_id : String) : List ConsolidationJob :=
  if can_write_summary && (decide (consolidation_trigger < pressure) || force_consolidate) then
    [{ job_id := job_id, session_id := session_id, consolidation_type := none }]
  else []

/-! ### Deduplication invariants -/

theorem candMapSet_map_id_of_any (m : List ContextCandidate) (c : ContextCandidate)
    (h : m.any (fun d => d.id == c.id) = true) :
    (candMapSet m c).map (fun d => d.id) = m.map (fun d => d.id) := by
  unfold candMapSet
  rw [if_pos h, List.map_map]
  refine List.map_congr_left (fun d _ => ?_)
  simp only [Function.comp_apply]
  split
  · next hd => exact (beq_iff_eq.mp hd).symm
  · rfl

theorem candMapSet_nodup (m : List ContextCandidate) (c : ContextCandidate)
    (h : (m.map (fun d => d.id)).Nodup) :
    ((candMapSet m c).map (fun d => d.id)).Nodup := by
  by_cases hany : m.any (fun d => d.id == c.id) = true
  · rw [candMapSet_map_id_of_any m c hany]; exact h
  · unfold candMapSet
    rw [if_neg hany, List.map_append]
    have hnot : c.id ∉ m.map (fun d => d.id) := by
      intro hmem
      rcases List.mem_map.mp hmem with ⟨d, hd, hid⟩
      exact hany (List.any_eq_true.mpr ⟨d, hd, beq_iff_eq.mpr hid⟩)
    simp only [List.map_cons, List.map_nil]
    rw [List.nodup_append]
    refine ⟨h, List.nodup_singleton _, ?_⟩
    intro x hx hx1
    rw [List.mem_singleton] at hx1
    exact hnot (hx1 ▸ hx)

theorem mem_candMapSet (m : List ContextCandidate) (c x : ContextCandidate)
    (h : x ∈ candMapSet m c) : x ∈ m ∨ x = c := by
  unfold candMapSet at h
  split at h
  · rcases List.mem_map.mp h with ⟨y, hy, hxy⟩
    by_cases hid : (y.id == c.id) = true
    · right; rw [if_pos hid] at hxy; exact hxy.symm
    · left; rw [if_neg hid] at hxy; exact hxy ▸ hy
  · rcases List.mem_append.mp h with hm | hc
    · exact Or.inl hm
    · exact Or.inr (List.mem_singleton.mp hc)

theorem dedupStep_nodup (m : List ContextCandidate) (c : ContextCandidate)
    (h : (m.map (fun d => d.id)).Nodup) :
    ((dedupStep m c).map (fun d => d.id)).Nodup := by
  unfold dedupStep
  split
  · exact candMapSet_nodup m c h
  · split
    · exact candMapSet_nodup m c h
    · exact h

theorem mem_dedupStep (m : List ContextCandidate) (c x : ContextCandidate)
    (h : x ∈ dedupStep m c) : x ∈ m ∨ x = c := by
  unfold dedupStep at h
  split at h
  · exact mem_candMapSet m c x h
  · split at h
    · exact mem_candMapSet m c x h
    · exact Or.inl h

theorem dedupStep_dominates_old (m : List ContextCandidate) (c : ContextCandidate)
    (h : (m.map (fun d => d.id)).Nodup) :
    ∀ x ∈ m, ∃ d ∈ dedupStep m c, d.id = x.id ∧ x.scores.final ≤ d.scores.final := by
  intro x hx
  unfold dedupStep
  split
  · next hfind =>
    have hxne : ¬(x.id == c.id) = true := List.find?_eq_none.mp hfind x hx
    unfold candMapSet
    split
    · refine ⟨x, ?_, rfl, le_refl _⟩
      exact List.mem_map.mpr ⟨x, hx, by rw [if_neg hxne]⟩
    · exact ⟨x, List.mem_append.mpr (Or.inl hx), rfl, le_refl _⟩
  · next existing hfind =>
    have hex_mem : existing ∈ m := List.mem_of_find?_eq_some hfind
    have hbeq := List.find?_some hfind
    have hex_id : existing.id = c.id := beq_iff_eq.mp hbeq
    have hany : m.any (fun d => d.id == c.id) = true :=
      List.any_eq_true.mpr ⟨existing, hex_mem, beq_iff_eq.mpr hex_id⟩
    split
    · next hlt =>
      unfold candMapSet
      rw [if_pos hany]
      by_cases hxid : (x.id == c.id) = true
      · have hxex : x = existing := by
          refine List.inj_on_of_nodup_map h hx hex_mem ?_
          rw [beq_iff_eq.mp hxid, hex_id]
        refine ⟨c, ?_, (beq_iff_eq.mp hxid).symm, ?_⟩
        · exact List.mem_map.mpr ⟨x, hx, by rw [if_pos hxid]⟩
        · rw [hxex]; exact le_of_lt hlt
      · refine ⟨x, ?_, rfl, le_refl _⟩
        exact List.mem_map.mpr ⟨x, hx, by rw [if_neg hxid]⟩
    · exact ⟨x, hx, rfl, le_refl _⟩

theorem dedupStep_dominates_new (m : List ContextCandidate) (c : ContextCandidate) :
    ∃ d ∈ dedupStep m c, d.id = c.id ∧ c.scores.final ≤ d.scores.final := by
  unfold dedupStep
  split
  · next hfind =>
    unfold candMapSet
    split
    · next hany =>
      rcases List.any_eq_true.mp hany with ⟨d, hd, hdid⟩
      exact absurd hdid (List.find?_eq_none.mp hfind d hd)
    · exact ⟨c, List.mem_append.mpr (Or.inr (List.mem_singleton.mpr rfl)), rfl, le_refl _⟩
  · next existing hfind =>
    have hex_mem : existing ∈ m := List.mem_of_find?_eq_some hfind
    have hex_id := List.find?_some hfind
    split
    · next hlt =>
      unfold candMapSet
      rw [if_pos (List.any_eq_true.mpr ⟨existing, hex_mem, hex_id⟩)]
      refine ⟨c, ?_, rfl, le_refl _⟩
      exact List.mem_map.mpr ⟨existing, hex_mem, by rw [if_pos hex_id]⟩
    · next hnlt =>
      exact ⟨existing, hex_mem, beq_iff_eq.mp hex_id, le_of_not_lt hnlt⟩

theorem dedup_fold_spec :
    ∀ (cs m : List ContextCandidate), (m.map (fun d => d.id)).Nodup →
      ((cs.foldl dedupStep m).map (fun d => d.id)).Nodup
      ∧ (∀ d ∈ cs.foldl dedupStep m, d ∈ m ∨ d ∈ cs)
      ∧ (∀ x ∈ m, ∃ d ∈ cs.foldl dedupStep m, d.id = x.id ∧ x.scores.final ≤ d.scores.final)
      ∧ (∀ x ∈ cs, ∃ d ∈ cs.foldl dedupStep m, d.id = x.id ∧ x.scores.final ≤ d.scores.final) := by
  intro cs
  induction cs with
  | nil =>
    intro m hm
    refine ⟨hm, fun d hd => Or.inl hd, fun x hx => ⟨x, hx, rfl, le_refl _⟩, fun x hx => absurd hx (List.not_mem_nil x)⟩
  | cons c cs ih =>
    intro m hm
    rw [List.foldl_cons]
    have hm1 : ((dedupStep m c).map (fun d => d.id)).Nodup := dedupStep_nodup m c hm
    rcases ih (dedupStep m c) hm1 with ⟨hA, hB, hC, hD⟩
    refine ⟨hA, ?_, ?_, ?_⟩
    · intro d hd
      rcases hB d hd with hdm | hdcs
      · rcases mem_dedupStep m c d hdm with hdm2 | hdc
        · exact Or.inl hdm2
        · exact Or.inr (hdc ▸ List.mem_cons_self c cs)
      · exact Or.inr (List.mem_cons_of_mem c hdcs)
    · intro x hx
      rcases dedupStep_dominates_old m c hm x hx with ⟨d1, hd1, hid1, hle1⟩
      rcases hC d1 hd1 with ⟨d2, hd2, hid2, hle2⟩
      exact ⟨d2, hd2, hid2.trans hid1, le_trans hle1 hle2⟩
    · intro x hx
      rcases List.mem_cons.mp hx with hxc | hxcs
      · rcases dedupStep_dominates_new m c with ⟨d1, hd1, hid1, hle1⟩
        rcases hC d1 hd1 with ⟨d2, hd2, hid2, hle2⟩
        subst hxc
        exact ⟨d2, hd2, hid2.trans hid1, le_trans hle1 hle2⟩
      · exact hD x hxcs

theorem dedupById_nodup (cs : List ContextCandidate) :
    ((dedupById cs).map (fun d => d.id)).Nodup :=
  (dedup_fold_spec cs [] (by simp)).1

theorem dedupById_subset (cs : List ContextCandidate) :
    ∀ d ∈ dedupById cs, d ∈ cs := by
  intro d hd
  rcases (dedup_fold_spec cs [] (by simp)).2.1 d hd with h | h
  · exact absurd h (List.not_mem_nil d)
  · exact h

theorem dedupById_dominates (cs : List ContextCandidate) :
    ∀ x ∈ cs, ∃ d ∈ dedupById cs, d.id = x.id ∧ x.scores.final ≤ d.scores.final :=
  (dedup_fold_spec cs [] (by simp)).2.2.2

/-! ### Greedy packing invariants -/

theorem sumTokens_append (l₁ l₂ : List ContextCandidate) :
    sumTokens (l₁ ++ l₂) = sumTokens l₁ + sumTokens l₂ := by
  unfold sumTokens
  rw [List.map_append, List.sum_append]

theorem packStep_fold_spec (budget : ℕ) (reason : String) :
    ∀ (cs : List ContextCandidate) (st : PackAcc),
      ((cs.foldl (packStep budget reason) st).used + sumTokens st.packed
          = st.used + sumTokens (cs.foldl (packStep budget reason) st).packed)
      ∧ (st.used ≤ budget → (cs.foldl (packStep budget reason) st).used ≤ budget)
      ∧ (∃ t, (cs.foldl (packStep budget reason) st).packed = st.packed ++ t
            ∧ ∀ c ∈ t, ∃ c₀ ∈ cs, c = acceptCandidate c₀)
      ∧ (∃ t, (cs.foldl (packStep budget reason) st).dropped = st.dropped ++ t
            ∧ ∀ d ∈ t, ∃ c₀ ∈ cs, d = rejectCandidate reason c₀)
      ∧ (∀ c₀ ∈ cs, acceptCandidate c₀ ∈ (cs.foldl (packStep budget reason) st).packed
            ∨ rejectCandidate reason c₀ ∈ (cs.foldl (packStep budget reason) st).dropped) := by
  intro cs
  induction cs with
  | nil =>
    intro st
    refine ⟨rfl, fun h => h, ⟨[], by simp, by simp⟩, ⟨[], by simp, by simp⟩, ?_⟩
    intro c₀ hc₀
    exact absurd hc₀ (List.not_mem_nil c₀)
  | cons c cs ih =>
    intro st
    rw [List.foldl_cons]
    by_cases h : st.used + c.token_count ≤ budget
    · have hstep : packStep budget reason st c
          = { used := st.used + c.token_count
              packed := st.packed ++ [acceptCandidate c]
              dropped := st.dropped } := by
        unfold packStep
        rw [if_pos h]
      rw [hstep]
      rcases ih { used := st.used + c.token_count
                  packed := st.packed ++ [acceptCandidate c]
                  dropped := st.dropped } with ⟨ih1, ih2, ⟨t3, ht3, ht3m⟩, ⟨t4, ht4, ht4m⟩, ih5⟩
      simp only at ih1 ih2 ht3 ht4
      refine ⟨?_, ?_, ?_, ?_, ?_⟩
      · have hacc : sumTokens (st.packed ++ [acceptCandidate c])
            = sumTokens st.packed + c.token_count := by
          rw [sumTokens_append]
          simp [sumTokens, acceptCandidate]
        rw [hacc] at ih1
        omega
      · intro hb
        exact ih2 h
      · refine ⟨[acceptCandidate c] ++ t3, by rw [ht3]; simp, ?_⟩
        intro x hx
        rcases List.mem_append.mp hx with hx1 | hx2
        · exact ⟨c, List.mem_cons_self c cs, (List.mem_singleton.mp hx1)⟩
        · rcases ht3m x hx2 with ⟨c₀, hc₀, hxc₀⟩
          exact ⟨c₀, List.mem_cons_of_mem c hc₀, hxc₀⟩
      · refine ⟨t4, ht4, ?_⟩
        intro d hd
        rcases ht4m d hd with ⟨c₀, hc₀, hdc₀⟩
        exact ⟨c₀, List.mem_cons_of_mem c hc₀, hdc₀⟩
      · intro c₀ hc₀
        rcases List.mem_cons.mp hc₀ with hc | hcs
        · left
          rw [ht3, hc]
          exact List.mem_append.mpr (Or.inl (List.mem_append.mpr (Or.inr (List.mem_singleton.mpr rfl))))
        · exact ih5 c₀ hcs
    · have hstep : packStep budget reason st c
          = { used := st.used
              packed := st.packed
              dropped := st.dropped ++ [rejectCandidate reason c] } := by
        unfold packStep
        rw [if_neg h]
      rw [hstep]
      rcases ih { used := st.used
                  packed := st.packed
                  dropped := st.dropped ++ [rejectCandidate reason c] } with
        ⟨ih1, ih2, ⟨t3, ht3, ht3m⟩, ⟨t4, ht4, ht4m⟩, ih5⟩
      simp only at ih1 ih2 ht3 ht4
      refine ⟨ih1, ih2, ⟨t3, ht3, ?_⟩, ?_, ?_⟩
      · intro x hx
        rcases ht3m x hx with ⟨c₀, hc₀, hxc₀⟩
        exact ⟨c₀, List.mem_cons_of_mem c hc₀, hxc₀⟩
      · refine ⟨[rejectCandidate reason c] ++ t4, by rw [ht4]; simp, ?_⟩
        intro d hd
        rcases List.mem_append.mp hd with hd1 | hd2
        · exact ⟨c, List.mem_cons_self c cs, (List.mem_singleton.mp hd1)⟩
        · rcases ht4m d hd2 with ⟨c₀, hc₀, hdc₀⟩
          exact ⟨c₀, List.mem_cons_of_mem c hc₀, hdc₀⟩
      · intro c₀ hc₀
        rcases List.mem_cons.mp hc₀ with hc | hcs
        · right
          rw [ht4, hc]
          exact List.mem_append.mpr (Or.inl (List.mem_append.mpr (Or.inr (List.mem_singleton.mpr rfl))))
        · exact ih5 c₀ hcs

theorem greedyPack_used_eq (budget : ℕ) (reason : String) (cands : List ContextCandidate) :
    (greedyPack budget reason cands).used = sumTokens (greedyPack budget reason cands).packed := by
  have h := (packStep_fold_spec budget reason cands { used := 0, packed := [], dropped := [] }).1
  simpa [greedyPack, sumTokens] using h

theorem greedyPack_used_le (budget : ℕ) (reason : String) (cands : List ContextCandidate) :
    (greedyPack budget reason cands).used ≤ budget :=
  (packStep_fold_spec budget reason cands { used := 0, packed := [], dropped := [] }).2.1
    (Nat.zero_le budget)

theorem greedyPack_sum_le (budget : ℕ) (reason : String) (cands : List ContextCandidate) :
    sumTokens (greedyPack budget reason cands).packed ≤ budget := by
  rw [← greedyPack_used_eq]
  exact greedyPack_used_le budget reason cands

theorem greedyPack_packed_from (budget : ℕ) (reason : String) (cands : List ContextCandidate) :
    ∀ c ∈ (greedyPack budget reason cands).packed, ∃ c₀ ∈ cands, c = acceptCandidate c₀ := by
  intro c hc
  rcases (packStep_fold_spec budget reason cands
    { used := 0, packed := [], dropped := [] }).2.2.1 with ⟨t, ht, htm⟩
  rw [show (greedyPack budget reason cands).packed
      = (cands.foldl (packStep budget reason) { used := 0, packed := [], dropped := [] }).packed
      from rfl, ht] at hc
  exact htm c (by simpa using hc)

theorem greedyPack_dropped_from (budget : ℕ) (reason : String) (cands : List ContextCandidate) :
    ∀ d ∈ (greedyPack budget reason cands).dropped, ∃ c₀ ∈ cands, d = rejectCandidate reason c₀ := by
  intro d hd
  rcases (packStep_fold_spec budget reason cands
    { used := 0, packed := [], dropped := [] }).2.2.2.1 with ⟨t, ht, htm⟩
  rw [show (greedyPack budget reason cands).dropped
      = (cands.foldl (packStep budget reason) { used := 0, packed := [], dropped := [] }).dropped
      from rfl, ht] at hd
  exact htm d (by simpa using hd)

theorem greedyPack_complete (budget : ℕ) (reason : String) (cands : List ContextCandidate) :
    ∀ c₀ ∈ cands, acceptCandidate c₀ ∈ (greedyPack budget reason cands).packed
      ∨ rejectCandidate reason c₀ ∈ (greedyPack budget reason cands).dropped :=
  (packStep_fold_spec budget reason cands { used := 0, packed := [], dropped := [] }).2.2.2.2

theorem packStep2_fold_spec (skillBudget l2Budget : ℕ) :
    ∀ (cs : List ContextCandidate) (st : PackAcc2),
      ((cs.foldl (packStep2 skillBudget l2Budget) st).skillTokensUsed
          + sumTokens (st.packed.filter (fun c => c.source == "skill"))
        = st.skillTokensUsed
          + sumTokens ((cs.foldl (packStep2 skillBudget l2Budget) st).packed.filter
              (fun c => c.source == "skill")))
      ∧ (st.skillTokensUsed ≤ skillBudget →
          (cs.foldl (packStep2 skillBudget l2Budget) st).skillTokensUsed ≤ skillBudget)
      ∧ ((cs.foldl (packStep2 skillBudget l2Budget) st).memoryTokensUsed
          + sumTokens (st.packed.filter (fun c => c.source != "skill"))
        = st.memoryTokensUsed
          + sumTokens ((cs.foldl (packStep2 skillBudget l2Budget) st).packed.filter
              (fun c => c.source != "skill")))
      ∧ (st.memoryTokensUsed ≤ l2Budget →
          (cs.foldl (packStep2 skillBudget l2Budget) st).memoryTokensUsed ≤ l2Budget) := by
  intro cs
  induction cs with
  | nil =>
    intro st
    exact ⟨rfl, fun h => h, rfl, fun h => h⟩
  | cons c cs ih =>
    intro st
    rw [List.foldl_cons]
    by_cases hsk : (c.source == "skill") = true
    · by_cases h : st.skillTokensUsed + c.token_count ≤ skillBudget
      · have hstep : packStep2 skillBudget l2Budget st c
            = { skillTokensUsed := st.skillTokensUsed + c.token_count
                memoryTokensUsed := st.memoryTokensUsed
                packed := st.packed ++ [acceptCandidate c]
                dropped := st.dropped } := by
          unfold packStep2
          rw [if_pos hsk, if_pos h]
        rw [hstep]
        rcases ih { skillTokensUsed := st.skillTokensUsed + c.token_count
                    memoryTokensUsed := st.memoryTokensUsed
                    packed := st.packed ++ [acceptCandidate c]
                    dropped := st.dropped } with ⟨ih1, ih2, ih3, ih4⟩
        simp only at ih1 ih2 ih3 ih4
        have hskacc : ((acceptCandidate c).source == "skill") = true := hsk
        have hf1 : (st.packed ++ [acceptCandidate c]).filter (fun c => c.source == "skill")
            = st.packed.filter (fun c => c.source == "skill") ++ [acceptCandidate c] := by
          rw [List.filter_append]
          simp [hskacc]
        have hf2 : (st.packed ++ [acceptCandidate c]).filter (fun c => c.source != "skill")
            = st.packed.filter (fun c => c.source != "skill") := by
          rw [List.filter_append]
          simp [bne, hskacc]
        rw [hf1, sumTokens_append] at ih1
        rw [hf2] at ih3
        have htok : sumTokens [acceptCandidate c] = c.token_count := by
          simp [sumTokens, acceptCandidate]
        rw [htok] at ih1
        exact ⟨by omega, fun _ => ih2 h, ih3, ih4⟩
      · have hstep : packStep2 skillBudget l2Budget st c
            = { skillTokensUsed := st.skillTokensUsed
                memoryTokensUsed := st.memoryTokensUsed
                packed := st.packed
                dropped := st.dropped ++ [rejectCandidate "skill_budget_exceeded" c] } := by
          unfold packStep2
          rw [if_pos hsk, if_neg h]
        rw [hstep]
        rcases ih { skillTokensUsed := st.skillTokensUsed
                    memoryTokensUsed := st.memoryTokensUsed
                    packed := st.packed
                    dropped := st.dropped ++ [rejectCandidate "skill_budget_exceeded" c] } with
          ⟨ih1, ih2, ih3, ih4⟩
        simp only at ih1 ih2 ih3 ih4
        exact ⟨ih1, ih2, ih3, ih4⟩
    · by_cases h : st.memoryTokensUsed + c.token_count ≤ l2Budget
      · have hstep : packStep2 skillBudget l2Budget st c
            = { skillTokensUsed := st.skillTokensUsed
                memoryTokensUsed := st.memoryTokensUsed + c.token_count
                packed := st.packed ++ [acceptCandidate c]
                dropped := st.dropped } := by
          unfold packStep2
          rw [if_neg hsk, if_pos h]
        rw [hstep]
        rcases ih { skillTokensUsed := st.skillTokensUsed
                    memoryTokensUsed := st.memoryTokensUsed + c.token_count
                    packed := st.packed ++ [acceptCandidate c]
                    dropped := st.dropped } with ⟨ih1, ih2, ih3, ih4⟩
        simp only at ih1 ih2 ih3 ih4
        have hskacc : ((acceptCandidate c).source == "skill") = false := by
          simpa using hsk
        have hf1 : (st.packed ++ [acceptCandidate c]).filter (fun c => c.source == "skill")
            = st.packed.filter (fun c => c.source == "skill") := by
          rw [List.filter_append]
          simp [hskacc]
        have hf2 : (st.packed ++ [acceptCandidate c]).filter (fun c => c.source != "skill")
            = st.packed.filter (fun c => c.source != "skill") ++ [acceptCandidate c] := by
          rw [List.filter_append]
          simp [bne, hskacc]
        rw [hf1] at ih1
        rw [hf2, sumTokens_append] at ih3
        have htok : sumTokens [acceptCandidate c] = c.token_count := by
          simp [sumTokens, acceptCandidate]
        rw [htok] at ih3
        exact ⟨ih1, ih2, by omega, fun _ => ih4 h⟩
      · have hstep : packStep2 skillBudget l2Budget st c
            = { skillTokensUsed := st.skillTokensUsed
                memoryTokensUsed := st.memoryTokensUsed
                packed := st.packed
                dropped := st.dropped ++ [rejectCandidate "l2_budget_exceeded" c] } := by
          unfold packStep2
          rw [if_neg hsk, if_neg h]
        rw [hstep]
        rcases ih { skillTokensUsed := st.skillTokensUsed
                    memoryTokensUsed := st.memoryTokensUsed
                    packed := st.packed
                    dropped := st.dropped ++ [rejectCandidate "l2_budget_exceeded" c] } with
          ⟨ih1, ih2, ih3, ih4⟩
        simp only at ih1 ih2 ih3 ih4
        exact ⟨ih1, ih2, ih3, ih4⟩

theorem packCombined_skill_sum_le (skillBudget l2Budget : ℕ) (cs : List ContextCandidate) :
    sumTokens ((packCombined skillBudget l2Budget cs).packed.filter
      (fun c => c.source == "skill")) ≤ skillBudget := by
  rcases packStep2_fold_spec skillBudget l2Budget cs
    { skillTokensUsed := 0, memoryTokensUsed := 0, packed := [], dropped := [] } with
    ⟨h1, h2, _, _⟩
  have h1s : (packCombined skillBudget l2Budget cs).skillTokensUsed
      = sumTokens ((packCombined skillBudget l2Budget cs).packed.filter
        (fun c => c.source == "skill")) := by
    simpa [packCombined, sumTokens] using h1
  rw [← h1s]
  exact h2 (Nat.zero_le _)

theorem packCombined_memory_sum_le (skillBudget l2Budget : ℕ) (cs : List ContextCandidate) :
    sumTokens ((packCombined skillBudget l2Budget cs).packed.filter
      (fun c => c.source != "skill")) ≤ l2Budget := by
  rcases packStep2_fold_spec skillBudget l2Budget cs
    { skillTokensUsed := 0, memoryTokensUsed := 0, packed := [], dropped := [] } with
    ⟨_, _, h3, h4⟩
  have h3s : (packCombined skillBudget l2Budget cs).memoryTokensUsed
      = sumTokens ((packCombined skillBudget l2Budget cs).packed.filter
        (fun c => c.source != "skill")) := by
    simpa [packCombined, sumTokens] using h3
  rw [← h3s]
  exact h4 (Nat.zero_le _)

theorem packStep2_fold_packed_from (skillBudget l2Budget : ℕ) :
    ∀ (cs : List ContextCandidate) (st : PackAcc2),
      ∀ c ∈ (cs.foldl (packStep2 skillBudget l2Budget) st).packed,
        c ∈ st.packed ∨ ∃ c₀ ∈ cs, c = acceptCandidate c₀ := by
  intro cs
  induction cs with
  | nil =>
    intro st c hc
    exact Or.inl hc
  | cons d ds ih =>
    intro st c hc
    rw [List.foldl_cons] at hc
    rcases ih (packStep2 skillBudget l2Budget st d) c hc with hin | ⟨c₀, hc₀, hcc₀⟩
    · have hstep : c ∈ st.packed ++ [acceptCandidate d] ∨ c ∈ st.packed := by
        unfold packStep2 at hin
        split at hin
        · split at hin
          · exact Or.inl hin
          · exact Or.inr hin
        · split at hin
          · exact Or.inl hin
          · exact Or.inr hin
      rcases hstep with h1 | h2
      · rcases List.mem_append.mp h1 with h3 | h4
        · exact Or.inl h3
        · exact Or.inr ⟨d, List.mem_cons_self d ds, List.mem_singleton.mp h4⟩
      · exact Or.inl h2
    · exact Or.inr ⟨c₀, List.mem_cons_of_mem d hc₀, hcc₀⟩

theorem packCombined_packed_from (skillBudget l2Budget : ℕ) (cs : List ContextCandidate) :
    ∀ c ∈ (packCombined skillBudget l2Budget cs).packed, ∃ c₀ ∈ cs, c = acceptCandidate c₀ := by
  intro c hc
  rcases packStep2_fold_packed_from skillBudget l2Budget cs
    { skillTokensUsed := 0, memoryTokensUsed := 0, packed := [], dropped := [] } c hc with
    h | h
  · exact absurd h (List.not_mem_nil c)
  · exact h

/-! ### Window compaction invariants -/

theorem compactL1_append (est : String → ℕ) :
    ∀ (w : List SlidingWindowEntry) (t : ℕ),
      (compactL1 est w t).2 ++ (compactL1 est w t).1 = w := by
  intro w
  induction w with
  | nil => intro t; rfl
  | cons e rest ih =>
    intro t
    simp only [compactL1]
    split
    · simpa using ih t
    · rfl

theorem compactL1_fits (est : String → ℕ) :
    ∀ (w : List SlidingWindowEntry) (t : ℕ),
      windowTokens est (compactL1 est w t).1 ≤ t ∨ (compactL1 est w t).1.length ≤ 2 := by
  intro w
  induction w with
  | nil =>
    intro t
    right
    simp [compactL1]
  | cons e rest ih =>
    intro t
    simp only [compactL1]
    split
    · next h => simpa using ih t
    · next h =>
      rcases not_and_or.mp h with h1 | h2
      · left
        exact le_of_not_lt h1
      · right
        exact le_of_not_lt h2

theorem compactL1_min_length (est : String → ℕ) :
    ∀ (w : List SlidingWindowEntry) (t : ℕ), 2 ≤ w.length →
      2 ≤ (compactL1 est w t).1.length := by
  intro w
  induction w with
  | nil =>
    intro t h
    simp at h
  | cons e rest ih =>
    intro t h
    simp only [compactL1]
    split
    · next hc =>
      have hlen : 2 ≤ rest.length := by
        have := hc.2
        simp only [List.length_cons] at this
        omega
      simpa using ih t hlen
    · exact h

/-! ### Decay refresh invariants -/

theorem decayRefresh_fold_mem (f : String → String → ℚ) :
    ∀ (mems : List MemoryItem) (acc : List DecayUpdate) (u : DecayUpdate),
      u ∈ mems.foldl (fun acc mem =>
          let newDecay := f mem.last_accessed mem.created_at
          if 0.05 < |newDecay - mem.decay_score| then
            acc ++ [{ id := mem.id, decay_score := newDecay }]
          else acc) acc →
      u ∈ acc ∨ ∃ mem ∈ mems,
        u = { id := mem.id, decay_score := f mem.last_accessed mem.created_at }
        ∧ 0.05 < |f mem.last_accessed mem.created_at - mem.decay_score| := by
  intro mems
  induction mems with
  | nil =>
    intro acc u hu
    exact Or.inl hu
  | cons mem mems ih =>
    intro acc u hu
    rw [List.foldl_cons] at hu
    by_cases h : (0.05 : ℚ) < |f mem.last_accessed mem.created_at - mem.decay_score|
    · rw [if_pos h] at hu
      rcases ih _ u hu with hacc | ⟨mem2, hmem2, he, hgt⟩
      · rcases List.mem_append.mp hacc with h1 | h2
        · exact Or.inl h1
        · right
          exact ⟨mem, List.mem_cons_self mem mems, List.mem_singleton.mp h2, h⟩
      · right
        exact ⟨mem2, List.mem_cons_of_mem mem hmem2, he, hgt⟩
    · rw [if_neg h] at hu
      rcases ih _ u hu with hacc | ⟨mem2, hmem2, he, hgt⟩
      · exact Or.inl hacc
      · right
        exact ⟨mem2, List.mem_cons_of_mem mem hmem2, he, hgt⟩

theorem decayRefreshUpdates_mem (f : String → String → ℚ) (mems : List MemoryItem) :
    ∀ u ∈ decayRefreshUpdates f mems, ∃ mem ∈ mems,
      u = { id := mem.id, decay_score := f mem.last_accessed mem.created_at }
      ∧ 0.05 < |f mem.last_accessed mem.created_at - mem.decay_score| := by
  intro u hu
  rcases decayRefresh_fold_mem f mems [] u hu with h | h
  · exact absurd h (List.not_mem_nil u)
  · exact h

theorem foldl_applyDecayUpdate_id (items : List DecayUpdate) (m : MemoryItem)
    (h : ∀ u ∈ items, m.id ≠ u.id) :
    items.foldl (fun m u => applyDecayUpdate u m) m = m := by
  induction items with
  | nil => rfl
  | cons u us ih =>
    rw [List.foldl_cons]
    have happ : applyDecayUpdate u m = m := by
      unfold applyDecayUpdate
      rw [if_neg]
      intro hbeq
      exact h u (List.mem_cons_self u us) (beq_iff_eq.mp hbeq)
    rw [happ]
    exact ih (fun v hv => h v (List.mem_cons_of_mem u hv))

theorem updateDecayScores_eq_map :
    ∀ (items : List DecayUpdate) (store : List MemoryItem),
      updateDecayScores store items
        = store.map (fun m => items.foldl (fun m u => applyDecayUpdate u m) m) := by
  intro items
  induction items with
  | nil =>
    intro store
    simp [updateDecayScores]
  | cons u us ih =>
    intro store
    unfold updateDecayScores at ih ⊢
    rw [List.foldl_cons, ih (store.map (applyDecayUpdate u)), List.map_map]
    rfl

/-! ### Retrieval invariants -/

theorem scoreItem_id (query : String) (recencyOf : String → ℚ)
    (memory_scopes activeSkillIds : List String) (similarityMap : List (String × ℚ))
    (hasEmbeddings : Bool) (est : String → ℕ) (item : MemoryItem) :
    (scoreItem query recencyOf memory_scopes activeSkillIds similarityMap hasEmbeddings est item).id
      = item.id := rfl

theorem scoreItem_content (query : String) (recencyOf : String → ℚ)
    (memory_scopes activeSkillIds : List String) (similarityMap : List (String × ℚ))
    (hasEmbeddings : Bool) (est : String → ℕ) (item : MemoryItem) :
    (scoreItem query recencyOf memory_scopes activeSkillIds similarityMap hasEmbeddings est item).content
      = item.content := rfl

theorem scoreItem_decay (query : String) (recencyOf : String → ℚ)
    (memory_scopes activeSkillIds : List String) (similarityMap : List (String × ℚ))
    (hasEmbeddings : Bool) (est : String → ℕ) (item : MemoryItem) :
    (scoreItem query recencyOf memory_scopes activeSkillIds similarityMap hasEmbeddings est
      item).scores.decay_penalty = item.decay_score := rfl

theorem mem_queryMemory (store : List MemoryItem) (p : MemoryQuery) :
    ∀ m ∈ queryMemory store p, m ∈ store ∧ memoryQueryPred p m = true := by
  intro m hm
  unfold queryMemory at hm
  have h1 : m ∈ sortByLe byAccessedDesc (store.filter (memoryQueryPred p)) :=
    (List.take_sublist _ _).subset hm
  have h2 : m ∈ store.filter (memoryQueryPred p) := mem_sortByLe.mp h1
  exact ⟨List.mem_of_mem_filter h2, List.of_mem_filter h2⟩

theorem mem_queryMemoryWithEmbeddings (store : List MemoryItem) (p : MemoryQuery) :
    ∀ m ∈ queryMemoryWithEmbeddings store p, m ∈ store ∧ memoryEmbedQueryPred p m = true := by
  intro m hm
  unfold queryMemoryWithEmbeddings at hm
  have h1 : m ∈ sortByLe byAccessedDesc (store.filter (memoryEmbedQueryPred p)) :=
    (List.take_sublist _ _).subset hm
  have h2 : m ∈ store.filter (memoryEmbedQueryPred p) := mem_sortByLe.mp h1
  exact ⟨List.mem_of_mem_filter h2, List.of_mem_filter h2⟩

theorem queryMemory_decay_lt (store : List MemoryItem) (p : MemoryQuery)
    (hx : p.exclude_high_decay = true) :
    ∀ m ∈ queryMemory store p, m.decay_score < 0.8 := by
  intro m hm
  have h := (mem_queryMemory store p m hm).2
  unfold memoryQueryPred at h
  rw [hx] at h
  simp only [Bool.and_eq_true, Bool.or_eq_true, Bool.not_eq_true] at h
  rcases h with ⟨_, hlast⟩
  rcases hlast with hfalse | hdecide
  · cases hfalse
  · exact of_decide_eq_true hdecide

theorem queryMemoryWithEmbeddings_decay_lt (store : List MemoryItem) (p : MemoryQuery) :
    ∀ m ∈ queryMemoryWithEmbeddings store p, m.decay_score < 0.85 := by
  intro m hm
  have h := (mem_queryMemoryWithEmbeddings store p m hm).2
  unfold memoryEmbedQueryPred at h
  simp only [Bool.and_eq_true] at h
  exact of_decide_eq_true h.2

theorem dedupFirst_subset :
    ∀ (l : List MemoryItem) (seen : List String), ∀ m ∈ dedupFirst l seen, m ∈ l := by
  intro l
  induction l with
  | nil =>
    intro seen m hm
    exact absurd hm (List.not_mem_nil m)
  | cons i rest ih =>
    intro seen m hm
    unfold dedupFirst at hm
    split at hm
    · exact List.mem_cons_of_mem i (ih seen m hm)
    · rcases List.mem_cons.mp hm with h1 | h2
      · exact h1 ▸ List.mem_cons_self i rest
      · exact List.mem_cons_of_mem i (ih (i.id :: seen) m h2)

theorem dedupFirst_ids_nodup :
    ∀ (l : List MemoryItem) (seen : List String),
      ((dedupFirst l seen).map (fun m => m.id)).Nodup
      ∧ ∀ m ∈ dedupFirst l seen, ¬ seen.contains m.id = true := by
  intro l
  induction l with
  | nil =>
    intro seen
    exact ⟨List.nodup_nil, fun m hm => absurd hm (List.not_mem_nil m)⟩
  | cons i rest ih =>
    intro seen
    unfold dedupFirst
    split
    · exact ih seen
    · next hns =>
      rcases ih (i.id :: seen) with ⟨hnodup, hseen⟩
      constructor
      · simp only [List.map_cons, List.nodup_cons]
        refine ⟨?_, hnodup⟩
        intro hmem
        rcases List.mem_map.mp hmem with ⟨m, hm, hid⟩
        have hthis := hseen m hm
        simp only [List.contains_cons] at hthis
        exact hthis (by rw [hid]; simp)
      · intro m hm
        rcases List.mem_cons.mp hm with h1 | h2
        · exact h1 ▸ hns
        · intro hc
          have hthis := hseen m h2
          simp only [List.contains_cons] at hthis
          exact hthis (by rw [hc]; simp)

/-- C6: memory records at or above the decay ceiling are excluded from
retrieval: every candidate a retrieval pass returns originates from a stored
record whose decay score is below 0.85 (the keyword pool is filtered at 0.8
by the `exclude_high_decay` flag and the embedding pool at 0.85, so 0.85 is
the uniform ceiling). -/
theorem decay_ceiling_exclusion (store : List MemoryItem) (cos : List ℚ → List ℚ → ℚ)
    (recencyOf : String → ℚ) (est : String → ℕ) (p : RetrieveParams) :
    ∀ c ∈ retrieve store cos recencyOf est p, ∃ m ∈ store,
      m.id = c.id ∧ m.content = c.content ∧ m.decay_score = c.scores.decay_penalty
      ∧ m.decay_score < 0.85 := by
  intro c hc
  rcases hqe : p.queryEmbedding with _ | qe
  all_goals
    simp only [retrieve, hqe] at hc
    split at hc
  · exact absurd hc (List.not_mem_nil c)
  case _ =>
    have h1 := (List.take_sublist _ _).subset hc
    have h2 := mem_sortByLe.mp h1
    rcases List.mem_map.mp h2 with ⟨item, hitem, hci⟩
    have hitem2 := dedupFirst_subset _ [] item hitem
    have hid : item.id = c.id := by rw [← hci]; rfl
    have hcontent : item.content = c.content := by rw [← hci]; rfl
    have hdecay : item.decay_score = c.scores.decay_penalty := by rw [← hci]; rfl
    rcases List.mem_append.mp hitem2 with hkw | hsem
    · have hmem := (mem_queryMemory store _ item hkw).1
      have hlt : item.decay_score < 0.8 := queryMemory_decay_lt store _ rfl item hkw
      exact ⟨item, hmem, hid, hcontent, hdecay, lt_trans hlt (by norm_num)⟩
    · exact absurd hsem (List.not_mem_nil item)
  · exact absurd hc (List.not_mem_nil c)
  case _ =>
    have h1 := (List.take_sublist _ _).subset hc
    have h2 := mem_sortByLe.mp h1
    rcases List.mem_map.mp h2 with ⟨item, hitem, hci⟩
    have hitem2 := dedupFirst_subset _ [] item hitem
    have hid : item.id = c.id := by rw [← hci]; rfl
    have hcontent : item.content = c.content := by rw [← hci]; rfl
    have hdecay : item.decay_score = c.scores.decay_penalty := by rw [← hci]; rfl
    rcases List.mem_append.mp hitem2 with hkw | hsem
    · have hmem := (mem_queryMemory store _ item hkw).1
      have hlt : item.decay_score < 0.8 := queryMemory_decay_lt store _ rfl item hkw
      exact ⟨item, hmem, hid, hcontent, hdecay, lt_trans hlt (by norm_num)⟩
    · have hmem := (mem_queryMemoryWithEmbeddings store _ item hsem).1
      have hlt : item.decay_score < 0.85 := queryMemoryWithEmbeddings_decay_lt store _ item hsem
      exact ⟨item, hmem, hid, hcontent, hdecay, hlt⟩

theorem retrieve_ids_nodup (store : List MemoryItem) (cos : List ℚ → List ℚ → ℚ)
    (recencyOf : String → ℚ) (est : String → ℕ) (p : RetrieveParams) :
    ((retrieve store cos recencyOf est p).map (fun c => c.id)).Nodup := by
  have key : ∀ (allItems : List MemoryItem)
      (f : MemoryItem → ContextCandidate) (n : ℕ),
      (∀ item, (f item).id = item.id) →
      ((allItems.map (fun m => m.id)).Nodup) →
      (((sortByLe byFinalDesc (allItems.map f)).take n).map (fun c => c.id)).Nodup := by
    intro allItems f n hf hnodup0
    have hids : (allItems.map f).map (fun c => c.id) = allItems.map (fun m => m.id) := by
      rw [List.map_map]
      exact List.map_congr_left (fun item _ => hf item)
    have hnodup : ((allItems.map f).map (fun c => c.id)).Nodup := by
      rw [hids]
      exact hnodup0
    have hperm : ((sortByLe byFinalDesc (allItems.map f)).map (fun c => c.id)).Perm
        ((allItems.map f).map (fun c => c.id)) :=
      (sortByLe_perm byFinalDesc (allItems.map f)).map _
    have hnodup2 : ((sortByLe byFinalDesc (allItems.map f)).map (fun c => c.id)).Nodup :=
      hperm.nodup_iff.mpr hnodup
    have hsub : (((sortByLe byFinalDesc (allItems.map f)).take n).map (fun c => c.id)).Sublist
        ((sortByLe byFinalDesc (allItems.map f)).map (fun c => c.id)) := by
      rw [List.map_take]
      exact List.take_sublist _ _
    exact hsub.nodup hnodup2
  rcases hqe : p.queryEmbedding with _ | qe
  all_goals
    simp only [retrieve, hqe]
    split
  · exact List.nodup_nil
  case _ =>
    exact key _ _ _ (fun item => rfl) (dedupFirst_ids_nodup _ []).1
  · exact List.nodup_nil
  case _ =>
    exact key _ _ _ (fun item => rfl) (dedupFirst_ids_nodup _ []).1

/-! ### Pack decomposition and scoring blend lemmas -/

/-- The sorted skill candidate list inside `pack`. -/
def packSortedSkills (est : String → ℕ) (activatedSkills : List SkillPackage) :
    List ContextCandidate :=
  sortByLe byFinalDesc (activatedSkills.map (skillCandidate est))

/-- The gated, sorted memory candidate list inside `pack`. -/
def packSortedMemory (threshold : ℚ) (retrievedCandidates ragCandidates : List ContextCandidate) :
    List ContextCandidate :=
  sortByLe byFinalDesc ((dedupById (retrievedCandidates ++ ragCandidates)).filter
    (fun c => decide (threshold ≤ c.scores.final)))

theorem pack_packed_eq (est : String → ℕ) (sliding_window : List SlidingWindowEntry)
    (loadout : Loadout) (retrievedCandidates ragCandidates : List ContextCandidate)
    (activatedSkills : List SkillPackage) (userMessage baseSystem : String) :
    (pack est sliding_window loadout retrievedCandidates ragCandidates activatedSkills
        userMessage baseSystem).packed
      = (greedyPack loadout.budgets.skills "skill_budget_exceeded"
          (packSortedSkills est activatedSkills)).packed
        ++ (greedyPack loadout.budgets.l2_budget_tokens "l2_budget_exceeded"
            (packSortedMemory loadout.thresholds.thalamus_threshold
              retrievedCandidates ragCandidates)).packed := rfl

theorem pack_dropped_eq (est : String → ℕ) (sliding_window : List SlidingWindowEntry)
    (loadout : Loadout) (retrievedCandidates ragCandidates : List ContextCandidate)
    (activatedSkills : List SkillPackage) (userMessage baseSystem : String) :
    (pack est sliding_window loadout retrievedCandidates ragCandidates activatedSkills
        userMessage baseSystem).dropped
      = ((dedupById (retrievedCandidates ++ ragCandidates)).filter
            (fun c => decide (c.scores.final < loadout.thresholds.thalamus_threshold))).map
          (markBelowThreshold loadout.thresholds.thalamus_threshold)
        ++ (greedyPack loadout.budgets.skills "skill_budget_exceeded"
            (packSortedSkills est activatedSkills)).dropped
        ++ (greedyPack loadout.budgets.l2_budget_tokens "l2_budget_exceeded"
            (packSortedMemory loadout.thresholds.thalamus_threshold
              retrievedCandidates ragCandidates)).dropped := by
  simp only [pack, packSortedSkills, packSortedMemory, List.append_assoc]

theorem mem_packSortedSkills (est : String → ℕ) (activatedSkills : List SkillPackage)
    (c : ContextCandidate) (hc : c ∈ packSortedSkills est activatedSkills) :
    ∃ s ∈ activatedSkills, c = skillCandidate est s := by
  unfold packSortedSkills at hc
  rcases List.mem_map.mp (mem_sortByLe.mp hc) with ⟨s, hs, hcs⟩
  exact ⟨s, hs, hcs.symm⟩

theorem mem_packSortedMemory (threshold : ℚ)
    (retrievedCandidates ragCandidates : List ContextCandidate)
    (c : ContextCandidate) (hc : c ∈ packSortedMemory threshold retrievedCandidates ragCandidates) :
    c ∈ dedupById (retrievedCandidates ++ ragCandidates) ∧ threshold ≤ c.scores.final := by
  unfold packSortedMemory at hc
  have h := List.mem_filter.mp (mem_sortByLe.mp hc)
  exact ⟨h.1, of_decide_eq_true h.2⟩

theorem skillCandidate_source (est : String → ℕ) (s : SkillPackage) :
    (skillCandidate est s).source = "skill" := rfl

theorem skillCandidate_final (est : String → ℕ) (s : SkillPackage) :
    (skillCandidate est s).scores.final = 1.0 + s.priority * 0.01 := rfl

theorem acceptCandidate_fields (c : ContextCandidate) :
    (acceptCandidate c).source = c.source ∧ (acceptCandidate c).scores = c.scores
      ∧ (acceptCandidate c).token_count = c.token_count
      ∧ (acceptCandidate c).id = c.id
      ∧ (acceptCandidate c).drop_reason = c.drop_reason :=
  ⟨rfl, rfl, rfl, rfl, rfl⟩

theorem rejectCandidate_fields (reason : String) (c : ContextCandidate) :
    (rejectCandidate reason c).source = c.source
      ∧ (rejectCandidate reason c).scores = c.scores
      ∧ (rejectCandidate reason c).id = c.id
      ∧ (rejectCandidate reason c).drop_reason = some reason :=
  ⟨rfl, rfl, rfl, rfl⟩

theorem semanticWeightProfile_sum : semanticWeightProfile.sum = 1 := by
  norm_num [semanticWeightProfile]

theorem lexicalWeightProfile_sum : lexicalWeightProfile.sum = 1 := by
  norm_num [lexicalWeightProfile]

theorem scoreItem_semantic_profile (query : String) (recencyOf : String → ℚ)
    (memory_scopes activeSkillIds : List String) (similarityMap : List (String × ℚ))
    (est : String → ℕ) (item : MemoryItem)
    (hpos : 0 < (List.lookup item.id similarityMap).getD 0) :
    (scoreItem query recencyOf memory_scopes activeSkillIds similarityMap true est
        item).scores.final
      = weightedSum semanticWeightProfile
          (scoreDims (scoreItem query recencyOf memory_scopes activeSkillIds similarityMap true est
            item).scores) := by
  simp only [scoreItem, scoreDims, weightedSum, semanticWeightProfile, hpos,
    eq_self_iff_true, true_and, and_self, if_true]
  ring

theorem scoreItem_lexical_profile (query : String) (recencyOf : String → ℚ)
    (memory_scopes activeSkillIds : List String) (similarityMap : List (String × ℚ))
    (est : String → ℕ) (item : MemoryItem) :
    (scoreItem query recencyOf memory_scopes activeSkillIds similarityMap false est
        item).scores.final
      = weightedSum lexicalWeightProfile
          (scoreDims (scoreItem query recencyOf memory_scopes activeSkillIds similarityMap false est
            item).scores) := by
  simp only [scoreItem, scoreDims, weightedSum, lexicalWeightProfile, Bool.false_eq_true,
    false_and, if_false]
  ring

theorem scoreItem_profile_cases (query : String) (recencyOf : String → ℚ)
    (memory_scopes activeSkillIds : List String) (similarityMap : List (String × ℚ))
    (hasEmbeddings : Bool) (est : String → ℕ) (item : MemoryItem) :
    (scoreItem query recencyOf memory_scopes activeSkillIds similarityMap hasEmbeddings est
        item).scores.final
      = weightedSum semanticWeightProfile
          (scoreDims (scoreItem query recencyOf memory_scopes activeSkillIds similarityMap
            hasEmbeddings est item).scores)
    ∨ (scoreItem query recencyOf memory_scopes activeSkillIds similarityMap hasEmbeddings est
        item).scores.final
      = weightedSum lexicalWeightProfile
          (lexicalDims (computeTextRelevance query item.content)
            (scoreItem query recencyOf memory_scopes activeSkillIds similarityMap
              hasEmbeddings est item).scores) := by
  by_cases h : hasEmbeddings = true ∧ 0 < (List.lookup item.id similarityMap).getD 0
  · left
    rcases h with ⟨h1, h2⟩
    subst h1
    exact scoreItem_semantic_profile query recencyOf memory_scopes activeSkillIds
      similarityMap est item h2
  · right
    simp only [scoreItem, lexicalDims, weightedSum, lexicalWeightProfile]
    rw [if_neg h]
    ring

theorem pack_packed_cases (est : String → ℕ) (sliding_window : List SlidingWindowEntry)
    (loadout : Loadout) (retrievedCandidates ragCandidates : List ContextCandidate)
    (activatedSkills : List SkillPackage) (userMessage baseSystem : String) :
    ∀ c ∈ (pack est sliding_window loadout retrievedCandidates ragCandidates activatedSkills
        userMessage baseSystem).packed,
      (∃ s ∈ activatedSkills, c = acceptCandidate (skillCandidate est s))
      ∨ (∃ c₀, c₀ ∈ dedupById (retrievedCandidates ++ ragCandidates)
          ∧ loadout.thresholds.thalamus_threshold ≤ c₀.scores.final
          ∧ c = acceptCandidate c₀) := by
  intro c hc
  rw [pack_packed_eq] at hc
  rcases List.mem_append.mp hc with hsk | hmem
  · rcases greedyPack_packed_from _ _ _ c hsk with ⟨c₀, hc₀, hcc₀⟩
    rcases mem_packSortedSkills est activatedSkills c₀ hc₀ with ⟨s, hs, hc₀s⟩
    exact Or.inl ⟨s, hs, by rw [hcc₀, hc₀s]⟩
  · rcases greedyPack_packed_from _ _ _ c hmem with ⟨c₀, hc₀, hcc₀⟩
    rcases mem_packSortedMemory _ _ _ c₀ hc₀ with ⟨hdedup, hth⟩
    exact Or.inr ⟨c₀, hdedup, hth, hcc₀⟩

theorem pack_dropped_cases (est : String → ℕ) (sliding_window : List SlidingWindowEntry)
    (loadout : Loadout) (retrievedCandidates ragCandidates : List ContextCandidate)
    (activatedSkills : List SkillPackage) (userMessage baseSystem : String) :
    ∀ d ∈ (pack est sliding_window loadout retrievedCandidates ragCandidates activatedSkills
        userMessage baseSystem).dropped,
      (∃ c₀, c₀ ∈ dedupById (retrievedCandidates ++ ragCandidates)
          ∧ c₀.scores.final < loadout.thresholds.thalamus_threshold
          ∧ d = markBelowThreshold loadout.thresholds.thalamus_threshold c₀)
      ∨ (∃ s ∈ activatedSkills, d = rejectCandidate "skill_budget_exceeded" (skillCandidate est s))
      ∨ (∃ c₀, c₀ ∈ dedupById (retrievedCandidates ++ ragCandidates)
          ∧ loadout.thresholds.thalamus_threshold ≤ c₀.scores.final
          ∧ d = rejectCandidate "l2_budget_exceeded" c₀) := by
  intro d hd
  rw [pack_dropped_eq] at hd
  rcases List.mem_append.mp hd with hfront | hmem
  · rcases List.mem_append.mp hfront with hbt | hsk
    · rcases List.mem_map.mp hbt with ⟨c₀, hc₀, hdc₀⟩
      have h := List.mem_filter.mp hc₀
      exact Or.inl ⟨c₀, h.1, of_decide_eq_true h.2, hdc₀.symm⟩
    · rcases greedyPack_dropped_from _ _ _ d hsk with ⟨c₀, hc₀, hdc₀⟩
      rcases mem_packSortedSkills est activatedSkills c₀ hc₀ with ⟨s, hs, hc₀s⟩
      exact Or.inr (Or.inl ⟨s, hs, by rw [hdc₀, hc₀s]⟩)
  · rcases greedyPack_dropped_from _ _ _ d hmem with ⟨c₀, hc₀, hdc₀⟩
    rcases mem_packSortedMemory _ _ _ c₀ hc₀ with ⟨hdedup, hth⟩
    exact Or.inr (Or.inr ⟨c₀, hdedup, hth, hdc₀⟩)

/-! ### Claim theorems -/

/-- C1: for every input to the pack operation, the token counts of packed
skill-fragment items sum to at most the configured skill budget, and the
token counts of packed memory items sum to at most the configured long-term
L2 budget — in both pack variants (the two-loop version and the combined-loop
version).  The hypothesis states that memory and RAG candidates do not carry
the reserved source tag `skill`, which holds of everything retrieval and RAG
produce. -/
theorem budget_respect
    (est : String → ℕ) (sliding_window : List SlidingWindowEntry) (loadout : Loadout)
    (retrievedCandidates ragCandidates : List ContextCandidate)
    (activatedSkills : List SkillPackage) (userMessage baseSystem : String)
    (hsrc : ∀ c ∈ retrievedCandidates ++ ragCandidates, c.source ≠ "skill")
    (skillBudget l2Budget : ℕ) (memory_relevance_min : ℚ)
    (retrieved2 : List ContextCandidate) (activatedSkills2 : List SkillPackage) :
    (sumTokens (((pack est sliding_window loadout retrievedCandidates ragCandidates
          activatedSkills userMessage baseSystem).packed).filter
        (fun c => c.source == "skill")) ≤ loadout.budgets.skills
      ∧ sumTokens (((pack est sliding_window loadout retrievedCandidates ragCandidates
          activatedSkills userMessage baseSystem).packed).filter
        (fun c => c.source != "skill")) ≤ loadout.budgets.l2_budget_tokens)
    ∧ (sumTokens (((packV2 est skillBudget l2Budget memory_relevance_min retrieved2
          activatedSkills2).packed).filter
        (fun c => c.source == "skill")) ≤ skillBudget
      ∧ sumTokens (((packV2 est skillBudget l2Budget memory_relevance_min retrieved2
          activatedSkills2).packed).filter
        (fun c => c.source != "skill")) ≤ l2Budget) := by
  constructor
  · set A := (greedyPack loadout.budgets.skills "skill_budget_exceeded"
      (packSortedSkills est activatedSkills)).packed with hA
    set B := (greedyPack loadout.budgets.l2_budget_tokens "l2_budget_exceeded"
      (packSortedMemory loadout.thresholds.thalamus_threshold
        retrievedCandidates ragCandidates)).packed with hB
    have hsk : ∀ c ∈ A, (c.source == "skill") = true := by
      intro c hc
      rcases greedyPack_packed_from _ _ _ c hc with ⟨c₀, hc₀, hcc₀⟩
      rcases mem_packSortedSkills est activatedSkills c₀ hc₀ with ⟨s, _, hc₀s⟩
      rw [hcc₀, hc₀s]
      rfl
    have hmem : ∀ c ∈ B, (c.source == "skill") = false := by
      intro c hc
      rcases greedyPack_packed_from _ _ _ c hc with ⟨c₀, hc₀, hcc₀⟩
      rcases mem_packSortedMemory _ _ _ c₀ hc₀ with ⟨hdedup, _⟩
      have hne : c₀.source ≠ "skill" := hsrc c₀ (dedupById_subset _ c₀ hdedup)
      rw [hcc₀]
      exact beq_eq_false_iff_ne.mpr hne
    rw [pack_packed_eq, ← hA, ← hB, List.filter_append, List.filter_append]
    have e1 : A.filter (fun c => c.source == "skill") = A := List.filter_eq_self.mpr hsk
    have e2 : B.filter (fun c => c.source == "skill") = [] :=
      List.filter_eq_nil_iff.mpr (fun c hc => by rw [hmem c hc]; exact Bool.false_ne_true)
    have e3 : A.filter (fun c => c.source != "skill") = [] :=
      List.filter_eq_nil_iff.mpr (fun c hc => by
        simp only [bne, hsk c hc, Bool.not_true]
        exact Bool.false_ne_true)
    have e4 : B.filter (fun c => c.source != "skill") = B :=
      List.filter_eq_self.mpr (fun c hc => by
        simp only [bne, hmem c hc, Bool.not_false])
    rw [e1, e2, e3, e4]
    constructor
    · rw [List.append_nil]
      exact greedyPack_sum_le _ _ _
    · rw [List.nil_append]
      exact greedyPack_sum_le _ _ _
  · constructor
    · exact packCombined_skill_sum_le _ _ _
    · exact packCombined_memory_sum_le _ _ _

/-- C2 counterexample input: a memory candidate with final score 0.5, below
both thresholds used by the counterexample. -/
def loMem : ContextCandidate :=
  { id := "lo1"
    source := "l2_memory"
    content := "c"
    label := "l"
    token_count := 10
    scores :=
      { relevance := 0.5, recency := 0.5, scope_match := 0.3, type_priority := 0.65,
        decay_penalty := 0, skill_weight := 0, final := 0.5 }
    dropped := false }

/-- C2 (counterexample): in the second pack variant a below-threshold
candidate is dropped with the constant reason `below_relevance_threshold`,
identical for the distinct thresholds 0.72 and 0.9, so the drop reason does
not tag the threshold value used, refuting the claim on that variant. -/
theorem below_threshold_reason_untagged :
    (packV2 (fun _ => 0) 50 100 0.72 [loMem] []).dropped
      = [{ loMem with dropped := true, drop_reason := some "below_relevance_threshold" }]
    ∧ (packV2 (fun _ => 0) 50 100 0.9 [loMem] []).dropped
      = [{ loMem with dropped := true, drop_reason := some "below_relevance_threshold" }] := by
  constructor <;>
    norm_num [packV2, loMem, packCombined, packStep2, sortByLe, insertByLe, byFinalDesc,
      skillCandidate, acceptCandidate, rejectCandidate]

/-- C2 (amended): every item packed by the Thalamus has a final score at
least the configured threshold, in both pack variants (skill candidates
score at least 1 whenever priorities are non-negative, and thresholds are at
most 1 per the budget-configuration invariant).  In the primary variant
every gated memory candidate scoring below the threshold is dropped with the
reason string that embeds the threshold value; in the second variant
below-threshold candidates are dropped with the constant reason
`below_relevance_threshold`, which does not carry the value. -/
theorem threshold_invariant
    (est : String → ℕ) (sliding_window : List SlidingWindowEntry) (loadout : Loadout)
    (retrievedCandidates ragCandidates : List ContextCandidate)
    (activatedSkills : List SkillPackage) (userMessage baseSystem : String)
    (hth : loadout.thresholds.thalamus_threshold ≤ 1)
    (hpr : ∀ s ∈ activatedSkills, 0 ≤ s.priority)
    (skillBudget l2Budget : ℕ) (memory_relevance_min : ℚ)
    (retrieved2 : List ContextCandidate) (activatedSkills2 : List SkillPackage)
    (hth2 : memory_relevance_min ≤ 1)
    (hpr2 : ∀ s ∈ activatedSkills2, 0 ≤ s.priority) :
    (∀ c ∈ (pack est sliding_window loadout retrievedCandidates ragCandidates
        activatedSkills userMessage baseSystem).packed,
      loadout.thresholds.thalamus_threshold ≤ c.scores.final)
    ∧ (∀ c ∈ dedupById (retrievedCandidates ++ ragCandidates),
        c.scores.final < loadout.thresholds.thalamus_threshold →
        markBelowThreshold loadout.thresholds.thalamus_threshold c
          ∈ (pack est sliding_window loadout retrievedCandidates ragCandidates
              activatedSkills userMessage baseSystem).dropped)
    ∧ (∀ c ∈ (packV2 est skillBudget l2Budget memory_relevance_min retrieved2
          activatedSkills2).packed,
        memory_relevance_min ≤ c.scores.final)
    ∧ (∀ c ∈ retrieved2, c.scores.final < memory_relevance_min →
        { c with dropped := true, drop_reason := some "below_relevance_threshold" }
          ∈ (packV2 est skillBudget l2Budget memory_relevance_min retrieved2
              activatedSkills2).dropped) := by
  refine ⟨?_, ?_, ?_, ?_⟩
  · intro c hc
    rcases pack_packed_cases est sliding_window loadout retrievedCandidates ragCandidates
      activatedSkills userMessage baseSystem c hc with ⟨s, hs, hcs⟩ | ⟨c₀, _, hth₀, hcc₀⟩
    · have hfin : c.scores.final = 1.0 + s.priority * 0.01 := by
        rw [hcs]
        rfl
      rw [hfin]
      have hp : (0 : ℚ) ≤ s.priority * 0.01 := mul_nonneg (hpr s hs) (by norm_num)
      calc loadout.thresholds.thalamus_threshold ≤ 1 := hth
        _ ≤ 1.0 + s.priority * 0.01 := by linarith
    · have hsc : c.scores = c₀.scores := by rw [hcc₀]; rfl
      rw [hsc]
      exact hth₀
  · intro c hc hlt
    rw [pack_dropped_eq]
    refine List.mem_append.mpr (Or.inl (List.mem_append.mpr (Or.inl
      (List.mem_map.mpr ⟨c, ?_, rfl⟩))))
    exact List.mem_filter.mpr ⟨hc, decide_eq_true hlt⟩
  · intro c hc
    have hc2 : c ∈ (packCombined skillBudget l2Budget
        (sortByLe byFinalDesc (activatedSkills2.map (skillCandidate est)
          ++ retrieved2.filter
            (fun c => decide (memory_relevance_min ≤ c.scores.final))))).packed := hc
    rcases packCombined_packed_from skillBudget l2Budget _ c hc2 with ⟨c₀, hc₀, hcc₀⟩
    rcases List.mem_append.mp (mem_sortByLe.mp hc₀) with hsk | hvm
    · rcases List.mem_map.mp hsk with ⟨s, hs, hc₀s⟩
      have hfin : c.scores.final = 1.0 + s.priority * 0.01 := by
        rw [hcc₀, ← hc₀s]
        rfl
      rw [hfin]
      have hp : (0 : ℚ) ≤ s.priority * 0.01 := mul_nonneg (hpr2 s hs) (by norm_num)
      calc memory_relevance_min ≤ 1 := hth2
        _ ≤ 1.0 + s.priority * 0.01 := by linarith
    · have h := List.mem_filter.mp hvm
      have hsc : c.scores = c₀.scores := by rw [hcc₀]; rfl
      rw [hsc]
      exact of_decide_eq_true h.2
  · intro c hc hlt
    have hdr : (packV2 est skillBudget l2Budget memory_relevance_min retrieved2
        activatedSkills2).dropped
        = (packCombined skillBudget l2Budget
            (sortByLe byFinalDesc (activatedSkills2.map (skillCandidate est)
              ++ retrieved2.filter
                (fun c => decide (memory_relevance_min ≤ c.scores.final))))).dropped
          ++ (retrieved2.filter
              (fun c => decide (c.scores.final < memory_relevance_min))).map
            (fun c => { c with dropped := true
                               drop_reason := some "below_relevance_threshold" }) := rfl
    rw [hdr]
    refine List.mem_append.mpr (Or.inr (List.mem_map.mpr ⟨c, ?_, rfl⟩))
    exact List.mem_filter.mpr ⟨hc, decide_eq_true hlt⟩

/-- C3 counterexample input: the scenario memory candidate with 50 tokens and
final score 0.80. -/
def scenarioMem : ContextCandidate :=
  { id := "mem1"
    source := "l2_memory"
    content := "memo"
    label := "[semantic:session] memo"
    token_count := 50
    scores :=
      { relevance := 0.8, recency := 0.8, scope_match := 0.9, type_priority := 0.85,
        decay_penalty := 0, skill_weight := 0, final := 0.80 }
    dropped := false }

/-- C3 counterexample input: loadout with memory budget 40 and threshold 0.72. -/
def scenarioLoadout : Loadout :=
  { budgets :=
      { l1_window_tokens := 2000, l2_budget_tokens := 40, skills := 600, response_reserve := 800 }
    thresholds := { thalamus_threshold := 0.72, consolidation_trigger := 0.8 } }

/-- C3 (counterexample): on the spec scenario (token_count 50, final score
0.80, memory budget 40, threshold 0.72) the candidate is dropped with reason
`l2_budget_exceeded`; no dropped item ever carries the reason string
`memory_budget_exceeded` claimed by the spec. -/
theorem scenario_drop_reason_is_l2 :
    (∃ d ∈ (pack (fun _ => 0) [] scenarioLoadout [scenarioMem] [] [] "q" "base").dropped,
        d.id = "mem1" ∧ d.drop_reason = some "l2_budget_exceeded")
    ∧ ∀ d ∈ (pack (fun _ => 0) [] scenarioLoadout [scenarioMem] [] [] "q" "base").dropped,
        d.drop_reason ≠ some "memory_budget_exceeded" := by
  have hdrop : (pack (fun _ => 0) [] scenarioLoadout [scenarioMem] [] [] "q" "base").dropped
      = [rejectCandidate "l2_budget_exceeded" scenarioMem] := by
    norm_num [pack, scenarioLoadout, scenarioMem, dedupById, dedupStep, candMapSet,
      markBelowThreshold, sortByLe, insertByLe, byFinalDesc, greedyPack, packStep,
      selectSlidingWindow, selectGo, skillCandidate, acceptCandidate, rejectCandidate]
  rw [hdrop]
  constructor
  · exact ⟨rejectCandidate "l2_budget_exceeded" scenarioMem, List.mem_singleton.mpr rfl, rfl, rfl⟩
  · intro d hd
    rw [List.mem_singleton.mp hd]
    simp [rejectCandidate]

/-- C3 (amended): a candidate that passes the relevance gate but does not fit
its budget is dropped with the distinct reason `skill_budget_exceeded` for
skill fragments and `l2_budget_exceeded` for memory candidates (the code
never emits `memory_budget_exceeded`); in the scenario of the claim the
candidate is dropped with `l2_budget_exceeded`, not a below-threshold
reason. -/
theorem budget_drop_reasons
    (est : String → ℕ) (sliding_window : List SlidingWindowEntry) (loadout : Loadout)
    (retrievedCandidates ragCandidates : List ContextCandidate)
    (activatedSkills : List SkillPackage) (userMessage baseSystem : String)
    (hsrc : ∀ c ∈ retrievedCandidates ++ ragCandidates, c.source ≠ "skill") :
    ∀ d ∈ (pack est sliding_window loadout retrievedCandidates ragCandidates
        activatedSkills userMessage baseSystem).dropped,
      (d.source = "skill" → d.drop_reason = some "skill_budget_exceeded")
      ∧ (d.source ≠ "skill" → loadout.thresholds.thalamus_threshold ≤ d.scores.final →
          d.drop_reason = some "l2_budget_exceeded") := by
  intro d hd
  rcases pack_dropped_cases est sliding_window loadout retrievedCandidates ragCandidates
    activatedSkills userMessage baseSystem d hd with
    ⟨c₀, hdedup, hlt, hdc₀⟩ | ⟨s, _, hds⟩ | ⟨c₀, hdedup, hge, hdc₀⟩
  · have hne : d.source ≠ "skill" := by
      rw [hdc₀]
      exact hsrc c₀ (dedupById_subset _ c₀ hdedup)
    constructor
    · intro hcontra
      exact absurd hcontra hne
    · intro _ hgef
      have hsc : d.scores = c₀.scores := by rw [hdc₀]; rfl
      rw [hsc] at hgef
      linarith
  · constructor
    · intro _
      rw [hds]
      rfl
    · intro hne _
      have : d.source = "skill" := by rw [hds]; rfl
      exact absurd this hne
  · have hne : d.source ≠ "skill" := by
      rw [hdc₀]
      exact hsrc c₀ (dedupById_subset _ c₀ hdedup)
    constructor
    · intro hcontra
      exact absurd hcontra hne
    · intro _ _
      rw [hdc₀]
      rfl

/-- C10: skill fragments bypass the relevance gate: every activated skill
reaches the packed-or-dropped output with the fixed final score
`1.0 + 0.01 * priority` (independent of the user message, whose change does
not alter the packed or dropped lists), and a skill-source item is dropped
only with reason `skill_budget_exceeded`, never a below-threshold reason,
whatever the threshold. -/
theorem skill_bypass
    (est : String → ℕ) (sliding_window : List SlidingWindowEntry) (loadout : Loadout)
    (retrievedCandidates ragCandidates : List ContextCandidate)
    (activatedSkills : List SkillPackage) (userMessage baseSystem : String)
    (userMessage2 baseSystem2 : String)
    (hsrc : ∀ c ∈ retrievedCandidates ++ ragCandidates, c.source ≠ "skill") :
    (∀ s ∈ activatedSkills,
      ∃ c ∈ (pack est sliding_window loadout retrievedCandidates ragCandidates
          activatedSkills userMessage baseSystem).packed
        ++ (pack est sliding_window loadout retrievedCandidates ragCandidates
          activatedSkills userMessage baseSystem).dropped,
        c.id = "skill:" ++ s.id ∧ c.scores.final = 1.0 + s.priority * 0.01)
    ∧ (∀ c ∈ (pack est sliding_window loadout retrievedCandidates ragCandidates
          activatedSkills userMessage baseSystem).packed
        ++ (pack est sliding_window loadout retrievedCandidates ragCandidates
          activatedSkills userMessage baseSystem).dropped,
        c.source = "skill" →
        c.drop_reason = none ∨ c.drop_reason = some "skill_budget_exceeded")
    ∧ ((pack est sliding_window loadout retrievedCandidates ragCandidates activatedSkills
          userMessage baseSystem).packed
        = (pack est sliding_window loadout retrievedCandidates ragCandidates activatedSkills
          userMessage2 baseSystem2).packed
      ∧ (pack est sliding_window loadout retrievedCandidates ragCandidates activatedSkills
          userMessage baseSystem).dropped
        = (pack est sliding_window loadout retrievedCandidates ragCandidates activatedSkills
          userMessage2 baseSystem2).dropped) := by
  refine ⟨?_, ?_, rfl, rfl⟩
  · intro s hs
    have hmem : skillCandidate est s ∈ packSortedSkills est activatedSkills := by
      unfold packSortedSkills
      exact mem_sortByLe.mpr (List.mem_map.mpr ⟨s, hs, rfl⟩)
    rcases greedyPack_complete loadout.budgets.skills "skill_budget_exceeded"
      (packSortedSkills est activatedSkills) (skillCandidate est s) hmem with hacc | hrej
    · refine ⟨acceptCandidate (skillCandidate est s), ?_, rfl, rfl⟩
      refine List.mem_append.mpr (Or.inl ?_)
      rw [pack_packed_eq]
      exact List.mem_append.mpr (Or.inl hacc)
    · refine ⟨rejectCandidate "skill_budget_exceeded" (skillCandidate est s), ?_, rfl, rfl⟩
      refine List.mem_append.mpr (Or.inr ?_)
      rw [pack_dropped_eq]
      exact List.mem_append.mpr (Or.inl (List.mem_append.mpr (Or.inr hrej)))
  · intro c hc
    rcases List.mem_append.mp hc with hp | hdr
    · intro hsk
      rcases pack_packed_cases est sliding_window loadout retrievedCandidates ragCandidates
        activatedSkills userMessage baseSystem c hp with ⟨s, _, hcs⟩ | ⟨c₀, hdedup, _, hcc₀⟩
      · left
        rw [hcs]
        rfl
      · have hne : c.source ≠ "skill" := by
          rw [hcc₀]
          exact hsrc c₀ (dedupById_subset _ c₀ hdedup)
        exact absurd hsk hne
    · intro hsk
      rcases pack_dropped_cases est sliding_window loadout retrievedCandidates ragCandidates
        activatedSkills userMessage baseSystem c hdr with
        ⟨c₀, hdedup, _, hdc₀⟩ | ⟨s, _, hds⟩ | ⟨c₀, hdedup, _, hdc₀⟩
      · have hne : c.source ≠ "skill" := by
          rw [hdc₀]
          exact hsrc c₀ (dedupById_subset _ c₀ hdedup)
        exact absurd hsk hne
      · right
        rw [hds]
        rfl
      · have hne : c.source ≠ "skill" := by
          rw [hdc₀]
          exact hsrc c₀ (dedupById_subset _ c₀ hdedup)
        exact absurd hsk hne

/-- C4 counterexample input: a memory item without an embedding whose content
fully overlaps the query lexically. -/
def lexItem : MemoryItem :=
  { id := "m1"
    type := "episodic"
    scope := "session"
    content := "alpha"
    embedding := none
    tags := []
    confidence := 1
    decay_score := 0
    created_at := "2024-01-01"
    last_accessed := "2024-01-01"
    token_count := 5
    user_id := "u"
    session_id := "s"
    project_id := none }

/-- C4 (counterexample): when embeddings are present for other candidates but
this candidate's semantic similarity is 0, the recorded relevance sub-score
is 0 while the blend applies the lexical profile to the keyword-overlap
score, so the final score (here 0.9) equals neither profile-weighted sum of
the recorded six sub-scores (0.5 and 0.45). -/
theorem recorded_relevance_mismatch :
    ¬((scoreItem "alpha" (fun _ => 1) ["session"] [] [("m2", 0.5)] true (fun _ => 0)
          lexItem).scores.final
        = weightedSum semanticWeightProfile
            (scoreDims (scoreItem "alpha" (fun _ => 1) ["session"] [] [("m2", 0.5)] true
              (fun _ => 0) lexItem).scores)
      ∨ (scoreItem "alpha" (fun _ => 1) ["session"] [] [("m2", 0.5)] true (fun _ => 0)
          lexItem).scores.final
        = weightedSum lexicalWeightProfile
            (scoreDims (scoreItem "alpha" (fun _ => 1) ["session"] [] [("m2", 0.5)] true
              (fun _ => 0) lexItem).scores)) := by
  have htok : computeTextRelevance "alpha" "alpha" = 1 := by
    have h1 : tokenize "alpha" = ["alpha"] := by decide
    have h2 : ¬("alpha" : String) = "" := by decide
    have h3 : List.filter (fun t => List.contains ["alpha"] t) ["alpha"] = ["alpha"] := by decide
    norm_num [computeTextRelevance, h1, h2, h3]
  have hlook : ∀ x : ℚ, (List.lookup "m1" [("m2", x)]).getD 0 = 0 := by
    intro x
    have e1 : ("m1" == "m2") = false := by decide
    simp [List.lookup, e1]
  have hscope : computeScopeMatch "session" ["session"] = 0.9 := by
    have e1 : (("session" : String) == "global") = false := by decide
    have e2 : List.contains ["session"] "session" = true := by decide
    simp [computeScopeMatch, e1, e2]
  have htype : computeTypeScore "episodic" = 0.65 := by
    have e1 : (("episodic" : String) == "summary") = false := by decide
    have e2 : (("episodic" : String) == "semantic") = false := by decide
    have e3 : (("episodic" : String) == "episodic") = true := by decide
    simp [computeTypeScore, e1, e2, e3]
  have hskillw : computeSkillWeight ([] : List String) [] = 0 := by
    simp [computeSkillWeight]
  have hsc : (scoreItem "alpha" (fun _ => 1) ["session"] [] [("m2", 0.5)] true (fun _ => 0)
      lexItem).scores
      = { relevance := 0, recency := 1, scope_match := 0.9, type_priority := 0.65,
          decay_penalty := 0, skill_weight := 0, final := 0.9 } := by
    norm_num [scoreItem, lexItem, htok, hlook, hscope, htype, hskillw]
  rw [hsc]
  norm_num [weightedSum, scoreDims, semanticWeightProfile, lexicalWeightProfile]

/-- C4 (amended): the final score is a weighted sum of the six dimension
values under exactly one of two fixed profiles, each summing to 1.0
(relevance weight 0.40 semantic, 0.45 lexical, decay weight halved in the
lexical profile); when the candidate's recorded relevance is the value the
blend consumes (an embedding contributed positively, or no embeddings at
all) this equals the profile-weighted sum of the recorded sub-scores, and in
the remaining case the lexical profile is applied with the keyword-overlap
score in the relevance slot. -/
theorem dual_weight_profiles
    (query : String) (recencyOf : String → ℚ) (memory_scopes activeSkillIds : List String)
    (similarityMap : List (String × ℚ)) (hasEmbeddings : Bool) (est : String → ℕ)
    (item : MemoryItem) :
    semanticWeightProfile.sum = 1
    ∧ lexicalWeightProfile.sum = 1
    ∧ (hasEmbeddings = true → 0 < (List.lookup item.id similarityMap).getD 0 →
        (scoreItem query recencyOf memory_scopes activeSkillIds similarityMap hasEmbeddings est
            item).scores.final
          = weightedSum semanticWeightProfile
              (scoreDims (scoreItem query recencyOf memory_scopes activeSkillIds similarityMap
                hasEmbeddings est item).scores))
    ∧ (hasEmbeddings = false →
        (scoreItem query recencyOf memory_scopes activeSkillIds similarityMap hasEmbeddings est
            item).scores.final
          = weightedSum lexicalWeightProfile
              (scoreDims (scoreItem query recencyOf memory_scopes activeSkillIds similarityMap
                hasEmbeddings est item).scores))
    ∧ ((scoreItem query recencyOf memory_scopes activeSkillIds similarityMap hasEmbeddings est
          item).scores.final
        = weightedSum semanticWeightProfile
            (scoreDims (scoreItem query recencyOf memory_scopes activeSkillIds similarityMap
              hasEmbeddings est item).scores)
      ∨ (scoreItem query recencyOf memory_scopes activeSkillIds similarityMap hasEmbeddings est
          item).scores.final
        = weightedSum lexicalWeightProfile
            (lexicalDims (computeTextRelevance query item.content)
              (scoreItem query recencyOf memory_scopes activeSkillIds similarityMap
                hasEmbeddings est item).scores)) := by
  refine ⟨semanticWeightProfile_sum, lexicalWeightProfile_sum, ?_, ?_, ?_⟩
  · intro hemb hpos
    subst hemb
    exact scoreItem_semantic_profile query recencyOf memory_scopes activeSkillIds
      similarityMap est item hpos
  · intro hemb
    subst hemb
    exact scoreItem_lexical_profile query recencyOf memory_scopes activeSkillIds
      similarityMap est item
  · exact scoreItem_profile_cases query recencyOf memory_scopes activeSkillIds
      similarityMap hasEmbeddings est item

/-- C5: whenever budget pressure reaches the configured trigger, the
orchestrator compacts the stored window toward 60% of the nominal window
budget: eviction happens from the oldest (front) end, the compacted window
either fits the reduced target or has hit the two-turn floor, at least two
turns survive whenever the window had two, and when eviction occurs the
stage adopts the compacted window, reports a positive evicted count, and
increments the compaction-pass counter by exactly one. -/
theorem compaction_under_pressure
    (est : String → ℕ) (pressure consolidation_trigger : ℚ) (l1_window_tokens : ℕ)
    (updatedWindow : List SlidingWindowEntry) (compaction_pass : ℕ)
    (hp : consolidation_trigger ≤ pressure) :
    ((compactL1 est updatedWindow (6 * l1_window_tokens / 10)).2
        ++ (compactL1 est updatedWindow (6 * l1_window_tokens / 10)).1 = updatedWindow)
    ∧ (windowTokens est (compactL1 est updatedWindow (6 * l1_window_tokens / 10)).1
        ≤ 6 * l1_window_tokens / 10
      ∨ (compactL1 est updatedWindow (6 * l1_window_tokens / 10)).1.length ≤ 2)
    ∧ (2 ≤ updatedWindow.length →
        2 ≤ (compactL1 est updatedWindow (6 * l1_window_tokens / 10)).1.length)
    ∧ (0 < (compactL1 est updatedWindow (6 * l1_window_tokens / 10)).2.length →
        (compactionStage est pressure consolidation_trigger l1_window_tokens updatedWindow
            compaction_pass).window
          = (compactL1 est updatedWindow (6 * l1_window_tokens / 10)).1
        ∧ (compactionStage est pressure consolidation_trigger l1_window_tokens updatedWindow
            compaction_pass).compaction_pass = compaction_pass + 1
        ∧ (compactionStage est pressure consolidation_trigger l1_window_tokens updatedWindow
            compaction_pass).evicted_count
          = (compactL1 est updatedWindow (6 * l1_window_tokens / 10)).2.length
        ∧ 0 < (compactionStage est pressure consolidation_trigger l1_window_tokens updatedWindow
            compaction_pass).evicted_count) := by
  refine ⟨compactL1_append est updatedWindow _, compactL1_fits est updatedWindow _,
    compactL1_min_length est updatedWindow _, ?_⟩
  intro hev
  simp only [compactionStage]
  rw [if_pos hp, if_pos hev]
  exact ⟨rfl, rfl, rfl, hev⟩

/-- C7: the aggregation paths never return two candidates with the same
record id, and on the dedup path of `pack` the surviving candidate with a
given id is one of the incoming duplicates and scores at least every
duplicate with that id; the retrieval dedup likewise yields pairwise-distinct
ids. -/
theorem aggregator_dedup
    (cs : List ContextCandidate) (store : List MemoryItem) (cos : List ℚ → List ℚ → ℚ)
    (recencyOf : String → ℚ) (est : String → ℕ) (p : RetrieveParams) :
    ((dedupById cs).map (fun c => c.id)).Nodup
    ∧ (∀ d ∈ dedupById cs, d ∈ cs
        ∧ ∀ c ∈ cs, c.id = d.id → c.scores.final ≤ d.scores.final)
    ∧ ((retrieve store cos recencyOf est p).map (fun c => c.id)).Nodup := by
  refine ⟨dedupById_nodup cs, ?_, retrieve_ids_nodup store cos recencyOf est p⟩
  intro d hd
  refine ⟨dedupById_subset cs d hd, ?_⟩
  intro c hc hid
  rcases dedupById_dominates cs c hc with ⟨d2, hd2, hid2, hle⟩
  have hdd : d2 = d :=
    List.inj_on_of_nodup_map (dedupById_nodup cs) hd2 hd (by rw [hid2, hid])
  rw [← hdd]
  exact hle

/-- C8: the decay-refresh step collects an update exactly for records whose
recomputed decay differs from the stored value by more than 0.05, and any
stored row for which every queried record with its id is within the epsilon
is left unchanged by the persistence step. -/
theorem decay_epsilon_gate
    (computeDecayF : String → String → ℚ) (store : List MemoryItem) (q : MemoryQuery) :
    (∀ u ∈ (consolidationDecayStep computeDecayF store (queryMemory store q)).2,
      ∃ mem ∈ queryMemory store q,
        u.id = mem.id ∧ u.decay_score = computeDecayF mem.last_accessed mem.created_at
        ∧ 0.05 < |computeDecayF mem.last_accessed mem.created_at - mem.decay_score|)
    ∧ (∀ (i : ℕ) (m : MemoryItem), store.get? i = some m →
        (∀ mem ∈ queryMemory store q, mem.id = m.id →
          |computeDecayF mem.last_accessed mem.created_at - mem.decay_score| ≤ 0.05) →
        (consolidationDecayStep computeDecayF store (queryMemory store q)).1.get? i
          = some m) := by
  constructor
  · intro u hu
    have hu2 : u ∈ decayRefreshUpdates computeDecayF (queryMemory store q) := hu
    rcases decayRefreshUpdates_mem computeDecayF (queryMemory store q) u hu2 with
      ⟨mem, hmem, hue, hgt⟩
    refine ⟨mem, hmem, ?_, ?_, hgt⟩
    · rw [hue]
    · rw [hue]
  · intro i m hget hcond
    have hstep : (consolidationDecayStep computeDecayF store (queryMemory store q)).1
        = if 0 < (decayRefreshUpdates computeDecayF (queryMemory store q)).length then
            updateDecayScores store (decayRefreshUpdates computeDecayF (queryMemory store q))
          else store := rfl
    rw [hstep]
    split
    · have hids : ∀ u ∈ decayRefreshUpdates computeDecayF (queryMemory store q), m.id ≠ u.id := by
        intro u hu heq
        rcases decayRefreshUpdates_mem computeDecayF (queryMemory store q) u hu with
          ⟨mem, hmem, hue, hgt⟩
        have hmid : mem.id = m.id := by
          rw [heq, hue]
        exact absurd (hcond mem hmem hmid) (not_le.mpr hgt)
      rw [updateDecayScores_eq_map, List.get?_map, hget, Option.map_some',
        foldl_applyDecayUpdate_id _ m hids]
    · exact hget

/-- C9: a consolidation job is never enqueued when the privacy gate denies
summary writes: with `can_write_summary = false` no job is inserted for any
pressure level, trigger ratio, force-consolidate flag, or session-end
signal, in either orchestrator variant. -/
theorem no_job_without_summary_permission
    (pressure consolidation_trigger : ℚ) (force_consolidate session_end : Bool)
    (job_id session_id : String) :
    jobsEnqueued false pressure consolidation_trigger force_consolidate session_end
        job_id session_id = []
    ∧ jobsEnqueuedV2 false pressure consolidation_trigger force_consolidate job_id session_id
        = [] := by
  constructor
  · simp [jobsEnqueued, shouldConsolidate]
  · simp [jobsEnqueuedV2]

/-! ### Concrete inputs for the witnesses -/

/-- Trivial token estimator used by the concrete witnesses. -/
def estZero : String → ℕ := fun _ => 0

/-- Constant recency curve used by the concrete witnesses. -/
def recOne : String → ℚ := fun _ => 1

/-- Constant cosine similarity used by the concrete witnesses. -/
def cosZero : List ℚ → List ℚ → ℚ := fun _ _ => 0

/-- Constant recomputed-decay function used by the C8 witness. -/
def decayHalf : String → String → ℚ := fun _ _ => 0.5

def wSkill : SkillPackage :=
  { id := "s1", name := "sk", system_fragment := "frag", token_budget := 100, priority := 5 }

def wMem : ContextCandidate :=
  { id := "m9", source := "l2_memory", content := "c", label := "l", token_count := 10,
    scores := { relevance := 0.9, recency := 0.9, scope_match := 0.9, type_priority := 0.85,
                decay_penalty := 0, skill_weight := 0, final := 0.9 },
    dropped := false }

def wLoadout : Loadout :=
  { budgets :=
      { l1_window_tokens := 100, l2_budget_tokens := 100, skills := 50, response_reserve := 10 }
    thresholds := { thalamus_threshold := 0.72, consolidation_trigger := 0.8 } }

def wTurn : SlidingWindowEntry :=
  { role := "user", content := "t", token_count := 250, timestamp := "ts" }

def wWin : List SlidingWindowEntry := List.replicate 10 wTurn

def wItem : MemoryItem :=
  { id := "a1", type := "episodic", scope := "session", content := "alpha", embedding := none,
    tags := [], confidence := 1, decay_score := 0, created_at := "t0", last_accessed := "t0",
    token_count := 7, user_id := "u", session_id := "s", project_id := none }

def wParams : RetrieveParams :=
  { user_id := "u", session_id := "s", project_id := none, query := "",
    queryEmbedding := none, memory_scopes := [], activated_skill_ids := [], limit := 30 }

def wOld : MemoryItem := { wItem with id := "old1", decay_score := 0 }

def wFresh : MemoryItem := { wItem with id := "fr1", decay_score := 0.48 }

def wQuery : MemoryQuery :=
  { user_id := "u", session_id := some "s", project_id := none, scope := none, type := none,
    limit := 100, exclude_high_decay := false }

def dupLow : ContextCandidate :=
  { wMem with id := "x", scores := { wMem.scores with final := 0.5 } }

def dupHigh : ContextCandidate :=
  { wMem with id := "x", scores := { wMem.scores with final := 0.9 } }

/-! ### Witnesses -/

/-- Witness for C1 at a concrete input. -/
theorem budget_respect_witness :
    (∀ c ∈ [wMem] ++ ([] : List ContextCandidate), c.source ≠ "skill")
    ∧ ((sumTokens (((pack estZero [] wLoadout [wMem] [] [wSkill] "u" "b").packed).filter
          (fun c => c.source == "skill")) ≤ wLoadout.budgets.skills
        ∧ sumTokens (((pack estZero [] wLoadout [wMem] [] [wSkill] "u" "b").packed).filter
          (fun c => c.source != "skill")) ≤ wLoadout.budgets.l2_budget_tokens)
      ∧ (sumTokens (((packV2 estZero 50 100 0.72 [wMem] [wSkill]).packed).filter
          (fun c => c.source == "skill")) ≤ 50
        ∧ sumTokens (((packV2 estZero 50 100 0.72 [wMem] [wSkill]).packed).filter
          (fun c => c.source != "skill")) ≤ 100)) :=
  ⟨by decide, budget_respect estZero [] wLoadout [wMem] [] [wSkill] "u" "b" (by decide)
    50 100 0.72 [wMem] [wSkill]⟩

/-- Witness for the amended C2 theorem at a concrete input, covering both
pack variants. -/
theorem threshold_invariant_witness :
    wLoadout.thresholds.thalamus_threshold ≤ 1
    ∧ (∀ s ∈ [wSkill], (0 : ℚ) ≤ s.priority)
    ∧ (0.72 : ℚ) ≤ 1
    ∧ (∀ c ∈ (pack estZero [] wLoadout [wMem] [] [wSkill] "u" "b").packed,
        wLoadout.thresholds.thalamus_threshold ≤ c.scores.final)
    ∧ ∀ c ∈ (packV2 estZero 50 100 0.72 [wMem] [wSkill]).packed,
        (0.72 : ℚ) ≤ c.scores.final := by
  have h1 : wLoadout.thresholds.thalamus_threshold ≤ 1 := by norm_num [wLoadout]
  have h2 : ∀ s ∈ [wSkill], (0 : ℚ) ≤ s.priority := by
    intro s hs
    rw [List.mem_singleton.mp hs]
    norm_num [wSkill]
  have h3 : (0.72 : ℚ) ≤ 1 := by norm_num
  have h := threshold_invariant estZero [] wLoadout [wMem] [] [wSkill] "u" "b" h1 h2
    50 100 0.72 [wMem] [wSkill] h3 h2
  exact ⟨h1, h2, h3, h.1, h.2.2.1⟩

/-- Witness for the amended C3 theorem at the scenario input. -/
theorem budget_drop_reasons_witness :
    (∀ c ∈ [scenarioMem] ++ ([] : List ContextCandidate), c.source ≠ "skill")
    ∧ ∀ d ∈ (pack estZero [] scenarioLoadout [scenarioMem] [] [] "q" "base").dropped,
        (d.source = "skill" → d.drop_reason = some "skill_budget_exceeded")
        ∧ (d.source ≠ "skill" → scenarioLoadout.thresholds.thalamus_threshold ≤ d.scores.final →
            d.drop_reason = some "l2_budget_exceeded") :=
  ⟨by decide,
    budget_drop_reasons estZero [] scenarioLoadout [scenarioMem] [] [] "q" "base" (by decide)⟩

/-- Witness for the amended C4 theorem at a concrete input. -/
theorem dual_weight_profiles_witness :
    semanticWeightProfile.sum = 1
    ∧ (scoreItem "" recOne [] [] [] false estZero wItem).scores.final
      = weightedSum lexicalWeightProfile
          (scoreDims (scoreItem "" recOne [] [] [] false estZero wItem).scores) := by
  have h := dual_weight_profiles "" recOne [] [] [] false estZero wItem
  exact ⟨h.1, h.2.2.2.1 rfl⟩

/-- Witness for C5 at the spec scenario: 10 turns of 250 tokens, window
budget 2000 (target 1200), pressure 1.25 against trigger 0.8. -/
theorem compaction_under_pressure_witness :
    (0.8 : ℚ) ≤ computePressure 2500 2000
    ∧ ((compactionStage estZero (computePressure 2500 2000) 0.8 2000 wWin 0).compaction_pass
        = 0 + 1
      ∧ (compactionStage estZero (computePressure 2500 2000) 0.8 2000 wWin 0).evicted_count
        = (compactL1 estZero wWin (6 * 2000 / 10)).2.length
      ∧ 0 < (compactionStage estZero (computePressure 2500 2000) 0.8 2000 wWin 0).evicted_count) := by
  have hp : (0.8 : ℚ) ≤ computePressure 2500 2000 := by
    rw [computePressure, max_eq_right]
    · norm_num
    · norm_num
  have hev : 0 < (compactL1 estZero wWin (6 * 2000 / 10)).2.length := by decide
  rcases (compaction_under_pressure estZero (computePressure 2500 2000) 0.8 2000 wWin 0
    hp).2.2.2 hev with ⟨h1, h2, h3, h4⟩
  exact ⟨hp, h2, h3, h4⟩

/-- Witness for C6 at a concrete one-record store. -/
theorem decay_ceiling_exclusion_witness :
    scoreItem "" recOne [] [] [] false estZero wItem
      ∈ retrieve [wItem] cosZero recOne estZero wParams
    ∧ ∃ m ∈ [wItem],
        m.id = (scoreItem "" recOne [] [] [] false estZero wItem).id
        ∧ m.content = (scoreItem "" recOne [] [] [] false estZero wItem).content
        ∧ m.decay_score
          = (scoreItem "" recOne [] [] [] false estZero wItem).scores.decay_penalty
        ∧ m.decay_score < 0.85 := by
  have hret : retrieve [wItem] cosZero recOne estZero wParams
      = [scoreItem "" recOne [] [] [] false estZero wItem] := by
    norm_num [retrieve, wParams, queryMemory, memoryQueryPred, wItem, sortByLe, insertByLe,
      byAccessedDesc, dedupFirst, buildSimilarityMap, List.take_of_length_le, List.lookup]
  have hmem : scoreItem "" recOne [] [] [] false estZero wItem
      ∈ retrieve [wItem] cosZero recOne estZero wParams := by
    rw [hret]
    exact List.mem_singleton.mpr rfl
  exact ⟨hmem, decay_ceiling_exclusion [wItem] cosZero recOne estZero wParams _ hmem⟩

/-- Witness for C7 on a concrete duplicate pair. -/
theorem aggregator_dedup_witness :
    dupHigh ∈ dedupById [dupLow, dupHigh]
    ∧ ((dedupById [dupLow, dupHigh]).map (fun c => c.id)).Nodup
    ∧ (dupHigh ∈ [dupLow, dupHigh]
      ∧ ∀ c ∈ [dupLow, dupHigh], c.id = dupHigh.id →
          c.scores.final ≤ dupHigh.scores.final) := by
  have hd : dedupById [dupLow, dupHigh] = [dupHigh] := by
    norm_num [dedupById, dedupStep, candMapSet, dupLow, dupHigh, wMem, List.find?_cons]
  have hmem : dupHigh ∈ dedupById [dupLow, dupHigh] := by
    rw [hd]
    exact List.mem_singleton.mpr rfl
  have h := aggregator_dedup [dupLow, dupHigh] [] cosZero recOne estZero wParams
  exact ⟨hmem, h.1, h.2.1 dupHigh hmem⟩

/-- Witness for C8 on a two-record store where one record is within the
epsilon and stays unchanged. -/
theorem decay_epsilon_gate_witness :
    ([wOld, wFresh].get? 1 = some wFresh)
    ∧ (∀ mem ∈ queryMemory [wOld, wFresh] wQuery, mem.id = wFresh.id →
        |decayHalf mem.last_accessed mem.created_at - mem.decay_score| ≤ 0.05)
    ∧ (consolidationDecayStep decayHalf [wOld, wFresh]
        (queryMemory [wOld, wFresh] wQuery)).1.get? 1 = some wFresh := by
  have hq : queryMemory [wOld, wFresh] wQuery = [wOld, wFresh] := by
    norm_num [queryMemory, wQuery, memoryQueryPred, wOld, wFresh, wItem, sortByLe, insertByLe,
      byAccessedDesc, List.take_of_length_le]
  have hget : [wOld, wFresh].get? 1 = some wFresh := rfl
  have hcond : ∀ mem ∈ queryMemory [wOld, wFresh] wQuery, mem.id = wFresh.id →
      |decayHalf mem.last_accessed mem.created_at - mem.decay_score| ≤ 0.05 := by
    rw [hq]
    intro mem hmem hid
    rcases List.mem_cons.mp hmem with h1 | h2
    · subst h1
      exact absurd hid (by decide)
    · rw [List.mem_singleton.mp h2]
      simp only [decayHalf, wFresh, wItem]
      rw [show (0.5 : ℚ) - 0.48 = 0.02 by norm_num]
      rw [abs_of_nonneg (by norm_num : (0 : ℚ) ≤ 0.02)]
      norm_num
  exact ⟨hget, hcond, (decay_epsilon_gate decayHalf [wOld, wFresh] wQuery).2 1 wFresh hget hcond⟩

/-- Witness for C10 at a concrete input. -/
theorem skill_bypass_witness :
    (∀ c ∈ [wMem] ++ ([] : List ContextCandidate), c.source ≠ "skill")
    ∧ ∃ c ∈ (pack estZero [] wLoadout [wMem] [] [wSkill] "u1" "b1").packed
        ++ (pack estZero [] wLoadout [wMem] [] [wSkill] "u1" "b1").dropped,
        c.id = "skill:" ++ wSkill.id ∧ c.scores.final = 1.0 + wSkill.priority * 0.01 := by
  have hsrc : ∀ c ∈ [wMem] ++ ([] : List ContextCandidate), c.source ≠ "skill" := by decide
  have h := skill_bypass estZero [] wLoadout [wMem] [] [wSkill] "u1" "b1" "u2" "b2" hsrc
  exact ⟨hsrc, h.1 wSkill (List.mem_singleton.mpr rfl)⟩

end CognitiveStack
